import Mathlib

/-!
# ZoneramaScraper: a verification development over `main.go`

The Go handlers `zoneramaHandler` and `zoneramaAlbumHandler` are embedded as
pure Lean functions.  Go strings are Lean strings (sequences of code points),
Go `int`s are integers, slices are lists, and the maps `seen` and `prelim` are
association lists.  The DOM engine and the fetch client are outside the
program: a fetched page is represented by the results of the selector queries
the handlers run on it.
-/

namespace Zonerama

/-! ## Strings -/

/-- White space in the sense of Go's `unicode.IsSpace`, which is the predicate
`strings.TrimSpace` trims with. -/
def isSpace (c : Char) : Bool :=
  let n := c.toNat
  (9 ≤ n && n ≤ 13) || n == 0x20 || n == 0x85 || n == 0xA0 || n == 0x1680 ||
    (0x2000 ≤ n && n ≤ 0x200A) || n == 0x2028 || n == 0x2029 || n == 0x202F ||
    n == 0x205F || n == 0x3000

/-- `strings.TrimSpace` on the code points of a string: leading and trailing
white space is removed. -/
def trimChars (l : List Char) : List Char :=
  (l.dropWhile isSpace).rdropWhile isSpace

/-- `strings.TrimSpace`. -/
def TrimSpace (s : String) : String := ⟨trimChars s.data⟩

/-! ## Data model (`Photo`, `Album`, `prelimInfo`) -/

/-- The Go struct `Photo`. -/
structure Photo where
  ID : String
  PageURL : String
  Image1500 : String
  deriving DecidableEq, Repr

/-- The Go struct `Album`. -/
structure Album where
  ID : String
  Title : String
  URL : String
  Date : String
  PhotosCnt : Int
  ViewsCnt : Int
  Photos : List Photo
  deriving DecidableEq, Repr

/-- The Go struct `prelimInfo` declared inside `zoneramaHandler`. -/
structure prelimInfo where
  Date : String
  PhotosCnt : Int
  ViewsCnt : Int
  deriving DecidableEq, Repr

/-! ## Metadata merge (end of `parseAlbum`, lines 577-590) -/

/-- The body of `if pi, ok := prelim[album.URL]; ok { ... }`: the three guarded
assignments, executed in source order on the album under construction. -/
def mergePrelim (album : Album) (info : prelimInfo) : Album :=
  let album :=
    if TrimSpace album.Date = "" ∧ TrimSpace info.Date ≠ "" then
      { album with Date := TrimSpace info.Date }
    else album
  let album :=
    if album.PhotosCnt = 0 ∧ info.PhotosCnt > 0 then
      { album with PhotosCnt := info.PhotosCnt }
    else album
  let album :=
    if album.ViewsCnt = 0 ∧ info.ViewsCnt > 0 then
      { album with ViewsCnt := info.ViewsCnt }
    else album
  album

/-- The lookup `prelim[url]` on the map `prelim`, kept as an association list
whose newest binding comes first. -/
def prelimGet (prelim : List (String × prelimInfo)) (url : String) : Option prelimInfo :=
  prelim.lookup url

/-- The assignment `prelim[url] = info`. -/
def prelimSet (prelim : List (String × prelimInfo)) (url : String) (info : prelimInfo) :
    List (String × prelimInfo) :=
  (url, info) :: prelim

/-! ## Entity page scan (`parseAlbum`) -/

/-- ASCII decimal digit, the class `\d` of Go's regexp package. -/
def isDigit (c : Char) : Bool := 48 ≤ c.toNat && c.toNat ≤ 57

/-- The matcher `photoIDRe.MatchString` for the pattern `(?i)^\d+$`: the whole
text is a non-empty run of digits. -/
def photoIDRe (s : String) : Bool := !s.data.isEmpty && s.data.all isDigit

/-- `strings.HasPrefix`. -/
def HasPrefix (s pre : String) : Bool := pre.data.isPrefixOf s.data

/-- `strings.TrimPrefix`. -/
def TrimPrefix (s pre : String) : String :=
  if pre.data.isPrefixOf s.data then ⟨s.data.drop pre.data.length⟩ else s

/-- Removes `pre` from the front of `l`, when it is there. -/
def dropLit (pre : List Char) (l : List Char) : Option (List Char) :=
  if pre.isPrefixOf l then some (l.drop pre.length) else none

/-- A match of `/Photo/\d+/(\d+)` starting at the first character of `l`;
the result is the captured group.  Both digit runs are maximal: the first one
must be followed by a slash, the second one is greedy. -/
def hrefMatchAt (l : List Char) : Option (List Char) :=
  match dropLit "/Photo/".data l with
  | none => none
  | some r =>
    if r.takeWhile isDigit = [] then none
    else
      match r.dropWhile isDigit with
      | '/' :: r2 => if r2.takeWhile isDigit = [] then none else some (r2.takeWhile isDigit)
      | _ => none

/-- Leftmost match of `/Photo/\d+/(\d+)` in `l`. -/
def hrefFind : List Char → Option (List Char)
  | [] => none
  | c :: t =>
    match hrefMatchAt (c :: t) with
    | some r => some r
    | none => hrefFind t

/-- The call `rePhotoIDFromHref.FindStringSubmatch(href)` followed by `m[1]`:
the captured photo id, or `none` when `len(m) < 2`. -/
def rePhotoIDFromHref (href : String) : Option String :=
  (hrefFind href.data).map String.mk

/-- A match of `/photos/(\d+)_` starting at the first character of `l`. -/
def imgMatchAt (l : List Char) : Option (List Char) :=
  match dropLit "/photos/".data l with
  | none => none
  | some r =>
    if r.takeWhile isDigit = [] then none
    else
      match r.dropWhile isDigit with
      | '_' :: _ => some (r.takeWhile isDigit)
      | _ => none

/-- Leftmost match of `/photos/(\d+)_` in `l`. -/
def imgFind : List Char → Option (List Char)
  | [] => none
  | c :: t =>
    match imgMatchAt (c :: t) with
    | some r => some r
    | none => imgFind t

/-- The call `rePhotoIDFromImg.FindStringSubmatch(src)` followed by `m[1]`. -/
def rePhotoIDFromImg (src : String) : Option String :=
  (imgFind src.data).map String.mk

/-- One element of the selection `photoSel`: its `data-id` attribute
(`AttrOr("data-id", "")`) and, when `s.Find("a.gallery-link")` is not empty,
the value of `a.AttrOr("href", "")`. -/
structure PhotoElem where
  dataId : String
  galleryLink : Option String
  deriving DecidableEq, Repr

/-- A fetched entity page (`cr` with a non-nil `HTMLDoc`), given by the results
of the queries `parseAlbum` runs on it.  `headerPhotos` is the integer that
`fmt.Sscanf(pc, "%d", &album.PhotosCnt)` leaves in `album.PhotosCnt` (0 when the
label is empty or does not scan). -/
structure AlbumPage where
  url : String
  host : String
  JoinURL : String → String
  metaAlbum : Option String
  titleText : String
  dateText : String
  headerPhotos : Int
  typedPhotos : List PhotoElem
  galleryInner : List PhotoElem
  photoAnchors : List String
  photoImages : List String

/-- The date of the album header, lines 481-485: trimmed, and with a leading
bar dropped. -/
def albumDateText (raw : String) : String :=
  let dateText := TrimSpace raw
  if dateText ≠ "" then TrimSpace (TrimPrefix dateText "|") else dateText

/-- The value of `fmt.Sprintf("https://%s/photos/%s_1500x1000.jpg", host, pid)`. -/
def image1500 (host pid : String) : String :=
  "https://" ++ host ++ "/photos/" ++ pid ++ "_1500x1000.jpg"

/-- The selection the first tier iterates over: the typed photo elements, or,
when there are none, the elements with a `data-id` inside `.gallery-inner`. -/
def photoSel (page : AlbumPage) : List PhotoElem :=
  if page.typedPhotos.length = 0 then page.galleryInner else page.typedPhotos

/-- The loop state of the three scans: `count` and `album.Photos`. -/
structure ScanState where
  count : Int
  photos : List Photo
  deriving DecidableEq, Repr

/-- Body of the callback of `photoSel.Each` (lines 499-518). -/
def tier1Each (photoLimit : Int) (page : AlbumPage) (st : ScanState) (s : PhotoElem) :
    ScanState :=
  if photoLimit > 0 ∧ st.count ≥ photoLimit then st
  else
    let pid := TrimSpace s.dataId
    if pid = "" ∨ photoIDRe pid = false then st
    else
      let pageURL :=
        match s.galleryLink with
        | some href => if HasPrefix href "/" then page.JoinURL href else href
        | none => ""
      { count := st.count + 1,
        photos := st.photos ++
          [{ ID := pid, PageURL := pageURL, Image1500 := image1500 page.host pid }] }

/-- Body of the callback of the anchor scan (lines 523-547). -/
def tier2Each (photoLimit : Int) (page : AlbumPage) (st : ScanState) (a : String) :
    ScanState :=
  if photoLimit > 0 ∧ st.count ≥ photoLimit then st
  else
    let href := TrimSpace a
    if href = "" then st
    else
      match rePhotoIDFromHref href with
      | none => st
      | some pid =>
        if photoIDRe pid = false then st
        else
          let pageURL := if HasPrefix href "/" then page.JoinURL href else href
          { count := st.count + 1,
            photos := st.photos ++
              [{ ID := pid, PageURL := pageURL, Image1500 := image1500 page.host pid }] }

/-- Body of the callback of the image scan (lines 556-571). -/
def tier3Each (photoLimit : Int) (page : AlbumPage) (st : ScanState) (img : String) :
    ScanState :=
  if photoLimit > 0 ∧ st.count ≥ photoLimit then st
  else
    let src := TrimSpace img
    match rePhotoIDFromImg src with
    | none => st
    | some pid =>
      { count := st.count + 1,
        photos := st.photos ++
          [{ ID := pid, PageURL := "", Image1500 := image1500 page.host pid }] }

/-- The photo scan of `parseAlbum` (lines 491-575): the first scan always
runs, the second and the third only when `count == 0` at that point. -/
def scanPhotos (photoLimit : Int) (page : AlbumPage) : ScanState :=
  let st : ScanState := { count := 0, photos := [] }
  let st := (photoSel page).foldl (tier1Each photoLimit page) st
  let st := if st.count = 0 then page.photoAnchors.foldl (tier2Each photoLimit page) st else st
  let st := if st.count = 0 then page.photoImages.foldl (tier3Each photoLimit page) st else st
  st

/-- The album `parseAlbum` has built when it reaches the merge (lines 470-575). -/
def extractAlbum (photoLimit : Int) (page : AlbumPage) : Album :=
  { ID := match page.metaAlbum with
          | some v => TrimSpace v
          | none => "",
    Title := TrimSpace page.titleText,
    URL := page.url,
    Date := albumDateText page.dateText,
    PhotosCnt := page.headerPhotos,
    ViewsCnt := 0,
    Photos := (scanPhotos photoLimit page).photos }

/-- The album that `parseAlbum` of `zoneramaHandler` hands to `addAlbum`. -/
def parseAlbum (photoLimit : Int) (prelim : List (String × prelimInfo)) (page : AlbumPage) :
    Album :=
  let album := extractAlbum photoLimit page
  match prelimGet prelim album.URL with
  | some info => mergePrelim album info
  | none => album

/-- The album that `parseAlbum` of `zoneramaAlbumHandler` appends to
`resp.Albums`: the same scan, without a merge. -/
def parseAlbumSingle (photoLimit : Int) (page : AlbumPage) : Album :=
  extractAlbum photoLimit page

/-! ## Dates: `time.Parse` on the four layouts of `parseCzDate`

`time.Parse` belongs to the Go standard library.  Its parser is embedded for
the reference elements that occur in the four layouts of the program: `2` and
`02` (day), `1` and `01` (month), `2006` (year); every other character of these
layouts is literal text, matched by `skip`.  A `time.Time` without zone is
represented by its Unix time in seconds. -/

/-- Value of a decimal digit, Go's `s[i] - 48`. -/
def digitVal (c : Char) : Nat := c.toNat - 48

/-- The helper `cutspace` of package time: drops leading blanks (U+0020 only). -/
def cutspace (s : List Char) : List Char := s.dropWhile (fun c => c == ' ')

/-- The loop of `skip` of package time, with the number of iterations bounded
by `fuel`: one blank of the layout matches a run of blanks of the value (or
the end of the value), any other character matches itself. -/
def skipLoop : Nat → List Char → List Char → Option (List Char)
  | _, value, [] => some value
  | 0, _, _ :: _ => none
  | fuel + 1, value, p :: ps =>
    if p = ' ' then
      match value with
      | [] => skipLoop fuel (cutspace value) (cutspace (p :: ps))
      | v :: _ =>
        if v ≠ ' ' then none
        else skipLoop fuel (cutspace value) (cutspace (p :: ps))
    else
      match value with
      | [] => none
      | v :: vs => if v ≠ p then none else skipLoop fuel vs ps

/-- The function `skip(value, prefix)` of package time; every iteration
removes a character of the layout text, so its length bounds the loop. -/
def skip (value pre : List Char) : Option (List Char) :=
  skipLoop pre.length value pre

/-- The function `getnum(s, fixed)` of package time: one or two digits, two
when `fixed`. -/
def getnum (s : List Char) (fixed : Bool) : Option (Nat × List Char) :=
  match s with
  | [] => none
  | c0 :: t =>
    if isDigit c0 = false then none
    else
      match t with
      | [] => if fixed then none else some (digitVal c0, t)
      | c1 :: t2 =>
        if isDigit c1 = false then
          if fixed then none else some (digitVal c0, t)
        else some (digitVal c0 * 10 + digitVal c1, t2)

/-- The function `atoi` of package time on a text without sign: the text is
all digits, and the result is its decimal value. -/
def atoi (p : List Char) : Option Nat :=
  if p.all isDigit then some (p.foldl (fun acc c => acc * 10 + digitVal c) 0) else none

/-- The function `isLeap` of package time. -/
def isLeap (year : Int) : Bool :=
  year % 4 == 0 && (year % 100 != 0 || year % 400 == 0)

/-- The table `daysBefore` of package time: days of a common year before the
month with the given zero-based index. -/
def daysBefore (i : Nat) : Int :=
  [0, 31, 59, 90, 120, 151, 181, 212, 243, 273, 304, 334, 365].getD i 0

/-- The function `daysIn(m, year)` of package time. -/
def daysIn (month : Int) (year : Int) : Int :=
  if month = 2 ∧ isLeap year = true then 29
  else daysBefore month.toNat - daysBefore (month.toNat - 1)

/-- The Unix time of `time.Date(year, month, day, 0, 0, 0, 0, time.UTC)` for a
month in 1..12: days since 1 January of year 1, moved to the epoch, in
seconds. -/
def Date (year month day : Int) : Int :=
  let y := year - 1
  let d := 365 * y + y / 4 - y / 100 + y / 400 + daysBefore (month.toNat - 1) +
    (if isLeap year = true ∧ month ≥ 3 then 1 else 0) + (day - 1)
  (d - 719162) * 86400

/-- The reference elements of the four layouts, named as in package time. -/
inductive Std
  | stdDay
  | stdZeroDay
  | stdNumMonth
  | stdZeroMonth
  | stdLongYear
  deriving DecidableEq, Repr

/-- A layout as `nextStdChunk` cuts it: the reference elements, each with the
literal text in front of it, and the literal text after the last one. -/
structure Layout where
  chunks : List (String × Std)
  suffix : String
  deriving DecidableEq, Repr

/-- The variables `year`, `month`, `day` of `time.parse`. -/
structure Fields where
  year : Int
  month : Int
  day : Int
  deriving DecidableEq, Repr

/-- One arm of the `switch std & stdMask` of `time.parse`, with the error
checks that follow the switch. -/
def parseStd (std : Std) (value : List Char) (f : Fields) : Option (Fields × List Char) :=
  match std with
  | .stdLongYear =>
    match value with
    | [] => none
    | c :: _ =>
      if value.length < 4 ∨ isDigit c = false then none
      else
        match atoi (value.take 4) with
        | none => none
        | some y => some ({ f with year := y }, value.drop 4)
  | .stdNumMonth | .stdZeroMonth =>
    match getnum value (decide (std = .stdZeroMonth)) with
    | none => none
    | some (m, rest) =>
      if m ≤ 0 ∨ 12 < m then none else some ({ f with month := m }, rest)
  | .stdDay | .stdZeroDay =>
    match getnum value (decide (std = .stdZeroDay)) with
    | none => none
    | some (d, rest) => some ({ f with day := d }, rest)

/-- The loop `for { prefix, std, suffix := nextStdChunk(layout) ... }` of
`time.parse`: literal text is skipped, the element is read; after the last
element the rest of the layout is skipped and the value must be used up. -/
def parseLoop (suffix : String) :
    List (String × Std) → List Char → Fields → Option Fields
  | [], value, f =>
    match skip value suffix.data with
    | none => none
    | some rest => if rest.length ≠ 0 then none else some f
  | (pre, std) :: more, value, f =>
    match skip value pre.data with
    | none => none
    | some v =>
      match parseStd std v f with
      | none => none
      | some (f2, v2) => parseLoop suffix more v2 f2

/-- The function `time.Parse(layout, value)`: the Unix time of the parsed date,
or `none` when it returns an error.  After the loop an unset month or day
becomes 1 and the day is checked against the length of the month. -/
def Parse (layout : Layout) (value : String) : Option Int :=
  match parseLoop layout.suffix layout.chunks value.data
      { year := 0, month := -1, day := -1 } with
  | none => none
  | some f =>
    let month := if f.month < 0 then 1 else f.month
    let day := if f.day < 0 then 1 else f.day
    if day < 1 ∨ day > daysIn month f.year then none
    else some (Date f.year month day)

/-- The layout `"2. 1. 2006"`. -/
def layout1 : Layout :=
  { chunks := [("", .stdDay), (". ", .stdNumMonth), (". ", .stdLongYear)], suffix := "" }

/-- The layout `"2. 1.2006"`. -/
def layout2 : Layout :=
  { chunks := [("", .stdDay), (". ", .stdNumMonth), (".", .stdLongYear)], suffix := "" }

/-- The layout `"2.1.2006"`. -/
def layout3 : Layout :=
  { chunks := [("", .stdDay), (".", .stdNumMonth), (".", .stdLongYear)], suffix := "" }

/-- The layout `"02.01.2006"`. -/
def layout4 : Layout :=
  { chunks := [("", .stdZeroDay), (".", .stdZeroMonth), (".", .stdLongYear)], suffix := "" }

/-- The slice `layouts` of `parseCzDate` and of `parseDate`, in source order. -/
def layouts : List Layout := [layout1, layout2, layout3, layout4]

/-- The loop `for _, layout := range layouts`: the first layout that parses
gives the result. -/
def firstParse : List Layout → String → Option Int
  | [], _ => none
  | layout :: more, s =>
    match Parse layout s with
    | some t => some t
    | none => firstParse more s

/-- The closure `parseCzDate` of `zoneramaHandler` (lines 742-759); `some t`
stands for `(t, true)` and `none` for `(time.Time{}, false)`. -/
def parseCzDate (s : String) : Option Int :=
  let s := TrimSpace s
  if s = "" then none else firstParse layouts s

/-- The closure `parseDate` of `parseProfile` (lines 652-664). -/
def parseDate (s : String) : Option Int :=
  let s := TrimSpace s
  if s = "" then none else firstParse layouts s

/-! ## Ordering (`sort.SliceStable` and the two comparators) -/

/-- Go's `<` on strings: lexicographic on bytes, which on UTF-8 text is the
lexicographic order of the code points. -/
def lexLess : List Char → List Char → Bool
  | [], [] => false
  | [], _ :: _ => true
  | _ :: _, [] => false
  | a :: as, b :: bs =>
    if a.toNat < b.toNat then true
    else if b.toNat < a.toNat then false
    else lexLess as bs

/-- Go's `a < b` on strings. -/
def strLess (a b : String) : Bool := lexLess a.data b.data

/-- One pass of the inner loop of the insertion sort of package sort
(`for j := i; j > a && less(j, j-1); j--`): the new element moves towards the
front while it is less than its left neighbour.  The sorted part is held in
reverse, its last element first. -/
def insertRev {α : Type} (less : α → α → Bool) (x : α) : List α → List α
  | [] => [x]
  | y :: ys => if less x y then y :: insertRev less x ys else x :: y :: ys

/-- The function `sort.SliceStable(x, less)` of the Go standard library, as
the insertion sort it runs on a block of up to 20 elements.  On longer slices
the library merges such blocks with `symMerge`; the result is again sorted and
stable, and for a strict weak order there is only one such arrangement
(`SliceStable_unique`), the one computed here. -/
def SliceStable {α : Type} (less : α → α → Bool) (xs : List α) : List α :=
  (xs.foldl (fun acc x => insertRev less x acc) []).reverse

/-- The comparator of the final sort (lines 760-774), on two albums. -/
def albumLess (a b : Album) : Bool :=
  match parseCzDate a.Date, parseCzDate b.Date with
  | some ti, some tj => decide (ti > tj)
  | some _, none => true
  | none, some _ => false
  | none, none => strLess a.Title b.Title

/-- The final sort of `resp.Albums`. -/
def finalSort (albums : List Album) : List Album := SliceStable albumLess albums

/-- The closure `addAlbum` (lines 433-437): the album is appended to
`resp.Albums`. -/
def addAlbum (albums : List Album) (a : Album) : List Album := albums ++ [a]

/-- The slice `resp.Albums` after the albums were added in the given order of
completion. -/
def resultSet (arrivals : List Album) : List Album := arrivals.foldl addAlbum []

/-! ## Listing fan-out (`parseProfile`) -/

/-- The Go struct `entry` declared inside `parseProfile`. -/
structure entry where
  URL : String
  Info : prelimInfo
  deriving DecidableEq, Repr

/-- The `<p>` block of a tile: its text, and the integers `fmt.Sscanf` leaves
in `photosCount` and `viewsCount` for the first two `span`s (0 when the span is
missing or does not scan). -/
structure TileP where
  text : String
  photosCount : Int
  viewsCount : Int
  deriving DecidableEq, Repr

/-- One album tile of a listing page: the attribute `data-url`, the `href` of
`a.thumbnail`, the `href` of the first anchor (each `""` when missing), and the
first `<p>` of the tile when there is one. -/
structure Tile where
  dataUrl : String
  thumbHref : String
  anchorHref : String
  p : Option TileP
  deriving DecidableEq, Repr

/-- A fetched listing page (`cr` with a non-nil `HTMLDoc`): the selection
`li.list-alb` and the selection `[data-type='album'], li[class*='list-alb']`. -/
structure ProfilePage where
  JoinURL : String → String
  listAlb : List Tile
  otherTiles : List Tile

/-- The selection `albumTiles` (lines 602-605). -/
def albumTiles (page : ProfilePage) : List Tile :=
  if page.listAlb.length = 0 then page.otherTiles else page.listAlb

/-- The link of a tile before it is made absolute (lines 614-622). -/
def tileLink (s : Tile) : String :=
  let albumURL := TrimSpace s.dataUrl
  if albumURL = "" then
    let albumURL := TrimSpace s.thumbHref
    if albumURL = "" then TrimSpace s.anchorHref else albumURL
  else albumURL

/-- The text before the first bar, `strings.Split(full, "|")[0]`. -/
def beforeBar (full : String) : String := ⟨full.data.takeWhile (fun c => c != '|')⟩

/-- The preliminary record of a tile (lines 630-648). -/
def tileInfo (s : Tile) : prelimInfo :=
  match s.p with
  | none => { Date := "", PhotosCnt := 0, ViewsCnt := 0 }
  | some p =>
    let full := TrimSpace p.text
    { Date := if full ≠ "" then TrimSpace (beforeBar full) else "",
      PhotosCnt := p.photosCount,
      ViewsCnt := p.viewsCount }

/-- Body of the callback of `albumTiles.Each` (lines 613-650): a tile without a
link is skipped, any other appends one entry. -/
def tileEntry (page : ProfilePage) (s : Tile) : Option entry :=
  let albumURL := tileLink s
  if albumURL = "" then none
  else
    let albumURL := if HasPrefix albumURL "/" then page.JoinURL albumURL else albumURL
    some { URL := albumURL, Info := tileInfo s }

/-- The slice `entries` after the scan of the tiles. -/
def scanTiles (page : ProfilePage) : List entry :=
  (albumTiles page).filterMap (tileEntry page)

/-- The comparator of the sort of `entries` (lines 665-678). -/
def entryLess (a b : entry) : Bool :=
  match parseDate a.Info.Date, parseDate b.Info.Date with
  | some ti, some tj => decide (ti > tj)
  | some _, none => true
  | none, some _ => false
  | none, none => strLess a.URL b.URL

/-- The shared maps `seen` and `prelim`, the local counter `count` of
`parseProfile`, and the links handed to `g.GetRendered` so far, in order. -/
structure CrawlState where
  seen : List String
  prelim : List (String × prelimInfo)
  count : Int
  dispatched : List String
  deriving DecidableEq, Repr

/-- The loop `for _, e := range entries` (lines 680-701): `break` when the
limit is reached, `continue` on a link already seen, else the link is marked,
counted and fetched. -/
def enqueueLoop (albumLimit : Int) : List entry → CrawlState → CrawlState
  | [], st => st
  | e :: rest, st =>
    if albumLimit > 0 ∧ st.count ≥ albumLimit then st
    else
      let st := { st with prelim := prelimSet st.prelim e.URL e.Info }
      if e.URL ∈ st.seen then enqueueLoop albumLimit rest st
      else
        enqueueLoop albumLimit rest
          { st with seen := e.URL :: st.seen, count := st.count + 1,
                    dispatched := st.dispatched ++ [e.URL] }

/-- The closure `parseProfile` on a listing page, from the maps `seen` and
`prelim` as it finds them: scan, sort, enqueue. -/
def parseProfile (albumLimit : Int) (page : ProfilePage) (seen : List String)
    (prelim : List (String × prelimInfo)) : CrawlState :=
  enqueueLoop albumLimit (SliceStable entryLess (scanTiles page))
    { seen := seen, prelim := prelim, count := 0, dispatched := [] }

/-! ## Input validation of `zoneramaAlbumHandler` (lines 38-59) -/

/-- Whether `sub` occurs in the text as a contiguous run. -/
def hasInfix (sub : List Char) : List Char → Bool
  | [] => sub.isPrefixOf []
  | c :: t => sub.isPrefixOf (c :: t) || hasInfix sub t

/-- `strings.Contains`. -/
def Contains (s substr : String) : Bool := hasInfix substr.data s.data

/-- The fields of `*url.URL` that the handler reads. -/
structure URL where
  Scheme : String
  Host : String
  Path : String
  deriving DecidableEq, Repr

/-- A request to `/zonerama-album`: the query parameter `link` (`""` when it is
missing), the result of `url.Parse(link)` of package net/url (`none` when it
returns an error), and `photoLimit` as the query leaves it (10 by default). -/
structure AlbumRequest where
  link : String
  parsed : Option URL
  photoLimit : Int
  deriving DecidableEq, Repr

/-- The checks of lines 39-59 in source order: the message of the first check
that fails, `none` when the link passes all four. -/
def albumLinkError (req : AlbumRequest) : Option String :=
  if req.link = "" then
    some ("missing link param: /zonerama-album?link=" ++
      "https://eu.zonerama.com/<Account>/Album/<AlbumId>")
  else
    match req.parsed with
    | none => some "invalid link URL"
    | some u =>
      if u.Scheme ≠ "http" ∧ u.Scheme ≠ "https" then some "invalid link URL"
      else if Contains u.Host "zonerama.com" = false then
        some "link must point to zonerama.com"
      else if Contains u.Path "/Album/" = false then
        some "zonerama-album expects an album link containing /Album/"
      else none

/-- The Go struct `Response`. -/
structure Response where
  InputLink : String
  Albums : List Album
  deriving DecidableEq, Repr

/-- What the handler writes: the status code, and either the error object or
the encoded response. -/
structure Reply where
  status : Nat
  error : Option String
  resp : Option Response
  deriving DecidableEq, Repr

/-- The handler `zoneramaAlbumHandler`.  A failed check writes 400 and the error
and returns; otherwise the link is fetched, `parseAlbum` appends the album of
the page when the fetch delivers a document, and the response is encoded
without an explicit status, which is 200. -/
def zoneramaAlbumHandler (req : AlbumRequest) (fetched : Option AlbumPage) : Reply :=
  match albumLinkError req with
  | some msg => { status := 400, error := some msg, resp := none }
  | none =>
    { status := 200, error := none,
      resp := some
        { InputLink := req.link,
          Albums :=
            match fetched with
            | some page => [parseAlbumSingle req.photoLimit page]
            | none => [] } }

/-- The source site as the specification words it: the host is `zonerama.com`
or one of its subdomains. -/
def specSourceSite (host : String) : Bool :=
  decide (host = "zonerama.com") || ".zonerama.com".data.isSuffixOf host.data

/-! ## Permit pool (lines 402-414) -/

/-- The capacity of `sem`: the value of `concurrency` after the two clamps,
from its value after the optional `Sscanf` (8 when the parameter is absent). -/
def semCapacity (concurrency albumLimit : Int) : Int :=
  let concurrency := if concurrency < 1 then 1 else concurrency
  let concurrency :=
    if albumLimit > 0 ∧ concurrency > albumLimit then albumLimit else concurrency
  concurrency

/-- The state in which `parseProfile` finds a crawl that has not dispatched
anything: `seen` is empty. -/
def crawlStart (prelim : List (String × prelimInfo)) : CrawlState :=
  { seen := [], prelim := prelim, count := 0, dispatched := [] }

/-! ## The tiers on their own -/

/-- Whether the first scan emits a photo for the element: its trimmed
`data-id` is not empty and matches `photoIDRe` (line 504). -/
def tier1Accepts (s : PhotoElem) : Bool :=
  decide (TrimSpace s.dataId ≠ "") && photoIDRe (TrimSpace s.dataId)

/-- The photo the first scan builds for an accepted element (lines 507-515). -/
def tier1Photo (page : AlbumPage) (s : PhotoElem) : Photo :=
  { ID := TrimSpace s.dataId,
    PageURL :=
      match s.galleryLink with
      | some href => if HasPrefix href "/" then page.JoinURL href else href
      | none => "",
    Image1500 := image1500 page.host (TrimSpace s.dataId) }

/-- The elements of the first selection for which a photo is emitted when
there is no limit, in document order. -/
def tier1Matches (page : AlbumPage) : List PhotoElem :=
  (photoSel page).filter tier1Accepts

/-- Output of the first scan, started with `count = 0` and no photos. -/
def tier1Out (photoLimit : Int) (page : AlbumPage) : List Photo :=
  ((photoSel page).foldl (tier1Each photoLimit page) { count := 0, photos := [] }).photos

/-- Output of the anchor scan, started with `count = 0` and no photos. -/
def tier2Out (photoLimit : Int) (page : AlbumPage) : List Photo :=
  (page.photoAnchors.foldl (tier2Each photoLimit page) { count := 0, photos := [] }).photos

/-- Output of the image scan, started with `count = 0` and no photos. -/
def tier3Out (photoLimit : Int) (page : AlbumPage) : List Photo :=
  (page.photoImages.foldl (tier3Each photoLimit page) { count := 0, photos := [] }).photos

/-- The first tier as the specification words it: the scan of the typed photo
elements alone, without the `.gallery-inner` selection. -/
def specTier1Typed (photoLimit : Int) (page : AlbumPage) : List Photo :=
  (page.typedPhotos.foldl (tier1Each photoLimit page) { count := 0, photos := [] }).photos

/-- The number `n` as the specification words it: elements of the first
selection whose `data-id` attribute itself matches the pattern. -/
def specTier1Count (page : AlbumPage) : Nat :=
  ((photoSel page).filter (fun s => photoIDRe s.dataId)).length

/-- The part of `l` that a scan still emits when `count` photos have been
emitted: all of it without a positive limit, else as many as the limit leaves. -/
def limitTake {α : Type} (photoLimit count : Int) (l : List α) : List α :=
  if photoLimit > 0 then l.take (photoLimit - count).toNat else l

/-- The first of the three lists that is not empty (the last one when all
are): the fallback rule over the outputs of three scans. -/
def firstNonEmpty (t1 t2 t3 : List Photo) : List Photo :=
  if t1 ≠ [] then t1 else if t2 ≠ [] then t2 else t3

/-- The tiles for which the scan resolves a link, in document order. -/
def linkTiles (page : ProfilePage) : List Tile :=
  (albumTiles page).filter (fun s => decide (tileLink s ≠ ""))

/-- The links of `urls` that are not in `seen` when their turn comes, each
once: a link joins `seen` when it is kept. -/
def unseenFirst : List String → List String → List String
  | _, [] => []
  | seen, u :: us =>
    if u ∈ seen then unseenFirst seen us else u :: unseenFirst (u :: seen) us

/-- The order of the entries as the specification words it: by parsed date
alone, newest first and dated before undated, every tie left to input order. -/
def specDateLess (a b : entry) : Bool :=
  match parseDate a.Info.Date, parseDate b.Info.Date with
  | some ti, some tj => decide (ti > tj)
  | some _, none => true
  | none, _ => false

/-- The dispatched links as the specification words them: the first `L`
entries of that order are kept, and of the kept entries the links not yet
visited are fetched. -/
def specDispatch (L : Int) (seen : List String) (entries : List entry) : List String :=
  unseenFirst seen (((SliceStable specDateLess entries).take L.toNat).map (fun e => e.URL))

/-! ## Rendering a date in the four layouts -/

/-- The character of a decimal digit. -/
def digitChar (k : Nat) : Char := Char.ofNat (48 + k)

/-- A day or month as the layout elements `2` and `1` render it: without
padding. -/
def num1or2 (n : Nat) : List Char :=
  if n < 10 then [digitChar n] else [digitChar (n / 10), digitChar (n % 10)]

/-- A day or month as the layout elements `02` and `01` render it: two
digits. -/
def num2 (n : Nat) : List Char := [digitChar (n / 10), digitChar (n % 10)]

/-- A year as the layout element `2006` renders it: four digits. -/
def num4 (y : Nat) : List Char :=
  [digitChar (y / 1000), digitChar (y / 100 % 10), digitChar (y / 10 % 10), digitChar (y % 10)]

/-- The date in the layout `D. M. YYYY`. -/
def renderSpaced (d m y : Nat) : List Char :=
  num1or2 d ++ '.' :: ' ' :: (num1or2 m ++ '.' :: ' ' :: num4 y)

/-- The date in the layout `D. M.YYYY`. -/
def renderHalfSpaced (d m y : Nat) : List Char :=
  num1or2 d ++ '.' :: ' ' :: (num1or2 m ++ '.' :: num4 y)

/-- The date in the layout `D.M.YYYY`. -/
def renderTight (d m y : Nat) : List Char :=
  num1or2 d ++ '.' :: (num1or2 m ++ '.' :: num4 y)

/-- The date in the layout `DD.MM.YYYY`. -/
def renderPadded (d m y : Nat) : List Char :=
  num2 d ++ '.' :: (num2 m ++ '.' :: num4 y)

/-! ## Concrete inputs -/

/-- A page skeleton for the examples: no header data and no photos. -/
def emptyPage : AlbumPage where
  url := "https://eu.zonerama.com/Acc/Album/100"
  host := "eu.zonerama.com"
  JoinURL := fun r => "https://eu.zonerama.com" ++ r
  metaAlbum := none
  titleText := ""
  dateText := ""
  headerPhotos := 0
  typedPhotos := []
  galleryInner := []
  photoAnchors := []
  photoImages := []

/-- Three typed photo elements. -/
def threePhotoPage : AlbumPage :=
  { emptyPage with
    typedPhotos := [⟨"11", some "/Acc/Photo/100/11"⟩, ⟨"12", none⟩, ⟨"13", none⟩] }

/-- No element for the first scan, two anchors with photo-detail links. -/
def twoAnchorPage : AlbumPage :=
  { emptyPage with photoAnchors := ["/Acc/Photo/100/21", "https://x.zonerama.com/Acc/Photo/100/22"] }

/-- One typed photo element whose `data-id` is padded with blanks. -/
def paddedIdPage : AlbumPage :=
  { emptyPage with typedPhotos := [⟨" 12 ", none⟩] }

/-- No typed photo element, one `data-id` element inside `.gallery-inner`, and
two anchors with photo-detail links. -/
def galleryInnerPage : AlbumPage :=
  { emptyPage with
    galleryInner := [⟨"5", none⟩],
    photoAnchors := ["/Acc/Photo/100/21", "/Acc/Photo/100/22"] }

/-- An entity page with a date line and a photo count in its header. -/
def datedAlbumPage : AlbumPage :=
  { emptyPage with dateText := " | 20. 9. 2025 ", headerPhotos := 4 }

/-- A tile with a `data-url` and a `<p>` block that starts with a date. -/
def datedTile (link date : String) : Tile :=
  { dataUrl := link, thumbHref := "", anchorHref := "",
    p := some { text := date ++ " | 12 | 340", photosCount := 12, viewsCount := 340 } }

/-- A tile with a `data-url` and no `<p>` block. -/
def plainTile (link : String) : Tile :=
  { dataUrl := link, thumbHref := "", anchorHref := "", p := none }

/-- A listing page with a tile of 2024 in front of a tile of 2025. -/
def twoTilePage : ProfilePage :=
  { JoinURL := fun r => "https://eu.zonerama.com" ++ r,
    listAlb := [datedTile "/Acc/Album/24" "1. 1. 2024", datedTile "/Acc/Album/25" "20. 9. 2025"],
    otherTiles := [] }

/-- A listing page on which the newest album is linked by two tiles. -/
def duplicateTilePage : ProfilePage :=
  { JoinURL := fun r => "https://eu.zonerama.com" ++ r,
    listAlb := [datedTile "/Acc/Album/25" "20. 9. 2025", datedTile "/Acc/Album/25" "20. 9. 2025",
      datedTile "/Acc/Album/24" "1. 1. 2024"],
    otherTiles := [] }

/-- A listing page with two tiles without a date, the later link first. -/
def undatedTilePage : ProfilePage :=
  { JoinURL := fun r => "https://eu.zonerama.com" ++ r,
    listAlb := [plainTile "/Acc/Album/b", plainTile "/Acc/Album/a"],
    otherTiles := [] }

/-- A result set with an undated album in front of two dated ones. -/
def mixedAlbums : List Album :=
  [ { ID := "3", Title := "C", URL := "u3", Date := "", PhotosCnt := 0, ViewsCnt := 0,
      Photos := [] },
    { ID := "1", Title := "A", URL := "u1", Date := "1. 1. 2024", PhotosCnt := 0,
      ViewsCnt := 0, Photos := [] },
    { ID := "2", Title := "B", URL := "u2", Date := "20.09.2025", PhotosCnt := 0,
      ViewsCnt := 0, Photos := [] } ]

/-- A link whose host contains the name of the site without being the site. -/
def foreignHostRequest : AlbumRequest :=
  { link := "https://zonerama.com.evil.org/Acc/Album/1",
    parsed := some { Scheme := "https", Host := "zonerama.com.evil.org", Path := "/Acc/Album/1" },
    photoLimit := 10 }

/-- A link to an album of the site. -/
def albumRequest : AlbumRequest :=
  { link := "https://eu.zonerama.com/Acc/Album/100",
    parsed := some { Scheme := "https", Host := "eu.zonerama.com", Path := "/Acc/Album/100" },
    photoLimit := 10 }

/-! # Theorems -/

/-! ## Lemmas on trimming -/

theorem dropWhile_rdropWhile_of_head (p : Char → Bool) :
    ∀ l : List Char, l.dropWhile p = l →
      (l.rdropWhile p).dropWhile p = l.rdropWhile p := by
  intro l hl
  cases l with
  | nil => simp
  | cons a t =>
    have ha : p a = false := by
      by_contra h
      have h1 : p a = true := by simpa using h
      have h2 : (List.dropWhile p (a :: t)).length ≤ t.length := by
        simp only [List.dropWhile_cons, h1, if_true]
        exact (List.dropWhile_suffix p).length_le
      rw [hl] at h2
      simp at h2
    have hpre : List.rdropWhile p (a :: t) <+: a :: t := List.rdropWhile_prefix p _
    have hne : List.rdropWhile p (a :: t) ≠ [] := by
      intro h
      have := List.rdropWhile_eq_nil_iff.mp h a (List.mem_cons_self _ _)
      simp [ha] at this
    obtain ⟨b, u, hu⟩ := List.exists_cons_of_ne_nil hne
    rw [hu] at hpre ⊢
    obtain ⟨s, hs⟩ := hpre
    have hab : b = a := by
      have := congrArg List.head? hs
      simpa using this
    subst hab
    simp [List.dropWhile_cons, ha]

theorem trimChars_idem (l : List Char) : trimChars (trimChars l) = trimChars l := by
  unfold trimChars
  rw [dropWhile_rdropWhile_of_head isSpace _ (List.dropWhile_idempotent _ _)]
  exact List.rdropWhile_idempotent _ _

theorem TrimSpace_idem (s : String) : TrimSpace (TrimSpace s) = TrimSpace s := by
  simp [TrimSpace, trimChars_idem]

theorem albumDateText_trimmed (raw : String) :
    TrimSpace (albumDateText raw) = albumDateText raw := by
  unfold albumDateText
  by_cases h : TrimSpace raw = ""
  · rw [if_neg (by simpa using h), h]
    decide
  · simp [h, TrimSpace_idem]

/-! ## The metadata merge -/

/-- C1: the merge at the end of parseAlbum is idempotent: merging the same
preliminary record a second time changes nothing, for every album record and
every preliminary record. -/
theorem mergePrelim_idempotent (e : Album) (p : prelimInfo) :
    mergePrelim (mergePrelim e p) p = mergePrelim e p := by
  obtain ⟨id, title, url, date, pc, vc, photos⟩ := e
  obtain ⟨pd, ppc, pvc⟩ := p
  simp only [mergePrelim]
  by_cases h1 : TrimSpace date = "" ∧ TrimSpace pd ≠ "" <;>
  by_cases h2 : pc = 0 ∧ ppc > 0 <;>
  by_cases h3 : vc = 0 ∧ pvc > 0 <;>
  simp [h1, h2, h3, TrimSpace_idem]

/-- The three guarded assignments leave a date that is not blank, a photo count
and a view count that are not zero, and every other field as they are. -/
theorem mergePrelim_keeps_nonblank (e : Album) (p : prelimInfo) :
    (TrimSpace e.Date ≠ "" → (mergePrelim e p).Date = e.Date) ∧
      (e.PhotosCnt ≠ 0 → (mergePrelim e p).PhotosCnt = e.PhotosCnt) ∧
      (e.ViewsCnt ≠ 0 → (mergePrelim e p).ViewsCnt = e.ViewsCnt) ∧
      (mergePrelim e p).ID = e.ID ∧ (mergePrelim e p).Title = e.Title ∧
      (mergePrelim e p).URL = e.URL ∧ (mergePrelim e p).Photos = e.Photos := by
  obtain ⟨id, title, url, date, pc, vc, photos⟩ := e
  obtain ⟨pd, ppc, pvc⟩ := p
  simp only [mergePrelim]
  by_cases h1 : TrimSpace date = "" ∧ TrimSpace pd ≠ "" <;>
  by_cases h2 : pc = 0 ∧ ppc > 0 <;>
  by_cases h3 : vc = 0 ∧ pvc > 0 <;>
  simp [h1, h2, h3]

/-- The merge on an album whose date is the text that the header extraction of
lines 481-485 leaves: such a date is trimmed, so it is kept as soon as it is
not empty. -/
theorem mergePrelim_keeps_extracted (e : Album) (p : prelimInfo) (raw : String)
    (hdate : e.Date = albumDateText raw) :
    (e.Date ≠ "" → (mergePrelim e p).Date = e.Date) ∧
      (e.PhotosCnt ≠ 0 → (mergePrelim e p).PhotosCnt = e.PhotosCnt) ∧
      (e.ViewsCnt ≠ 0 → (mergePrelim e p).ViewsCnt = e.ViewsCnt) ∧
      (mergePrelim e p).ID = e.ID ∧ (mergePrelim e p).Title = e.Title ∧
      (mergePrelim e p).URL = e.URL ∧ (mergePrelim e p).Photos = e.Photos := by
  have h := mergePrelim_keeps_nonblank e p
  have htrim : TrimSpace e.Date = e.Date := by
    rw [hdate]
    exact albumDateText_trimmed raw
  refine ⟨?_, h.2.1, h.2.2.1, h.2.2.2⟩
  intro hne
  exact h.1 (by rw [htrim]; exact hne)

/-- C2: the metadata merge never overwrites a non-empty authoritative value.
For every album whose date is the one parseAlbum extracts from the entity page
(every album that reaches the merge is of this kind) and every preliminary
record: a non-empty date, a non-zero photo count and a non-zero view count are
kept, and id, title, url and the photo list are unchanged in every case.  The
same holds for parseAlbum as a whole, whatever the map of preliminary records
holds for the link of the page. -/
theorem merge_never_overwrites (e : Album) (p : prelimInfo) (raw : String)
    (photoLimit : Int) (prelim : List (String × prelimInfo)) (page : AlbumPage)
    (hdate : e.Date = albumDateText raw) :
    ((e.Date ≠ "" → (mergePrelim e p).Date = e.Date) ∧
      (e.PhotosCnt ≠ 0 → (mergePrelim e p).PhotosCnt = e.PhotosCnt) ∧
      (e.ViewsCnt ≠ 0 → (mergePrelim e p).ViewsCnt = e.ViewsCnt) ∧
      (mergePrelim e p).ID = e.ID ∧ (mergePrelim e p).Title = e.Title ∧
      (mergePrelim e p).URL = e.URL ∧ (mergePrelim e p).Photos = e.Photos) ∧
    (((extractAlbum photoLimit page).Date ≠ "" →
        (parseAlbum photoLimit prelim page).Date = (extractAlbum photoLimit page).Date) ∧
      ((extractAlbum photoLimit page).PhotosCnt ≠ 0 →
        (parseAlbum photoLimit prelim page).PhotosCnt =
          (extractAlbum photoLimit page).PhotosCnt) ∧
      (parseAlbum photoLimit prelim page).ID = (extractAlbum photoLimit page).ID ∧
      (parseAlbum photoLimit prelim page).Title = (extractAlbum photoLimit page).Title ∧
      (parseAlbum photoLimit prelim page).URL = (extractAlbum photoLimit page).URL ∧
      (parseAlbum photoLimit prelim page).Photos = (extractAlbum photoLimit page).Photos) := by
  refine ⟨mergePrelim_keeps_extracted e p raw hdate, ?_⟩
  simp only [parseAlbum]
  split
  · rename_i info _
    have h := mergePrelim_keeps_extracted (extractAlbum photoLimit page) info page.dateText rfl
    exact ⟨h.1, h.2.1, h.2.2.2⟩
  · exact ⟨fun _ => rfl, fun _ => rfl, rfl, rfl, rfl, rfl⟩

/-- Witness for C2: an album with the extracted date 20. 9. 2025, 4 photos and
9 views keeps all three against a preliminary record with other values, and
parseAlbum on a page with that date line and photo count returns them although
the map holds another date and count for the link. -/
theorem merge_never_overwrites_witness :
    albumDateText " | 20. 9. 2025 " = "20. 9. 2025" ∧
      (mergePrelim ⟨"7", "T", "u", "20. 9. 2025", 4, 9, []⟩ ⟨"1. 1. 2024", 5, 6⟩).Date
        = "20. 9. 2025" ∧
      (mergePrelim ⟨"7", "T", "u", "20. 9. 2025", 4, 9, []⟩ ⟨"1. 1. 2024", 5, 6⟩).PhotosCnt
        = 4 ∧
      (mergePrelim ⟨"7", "T", "u", "20. 9. 2025", 4, 9, []⟩ ⟨"1. 1. 2024", 5, 6⟩).ViewsCnt
        = 9 ∧
      (parseAlbum 10 [(datedAlbumPage.url, ⟨"1. 1. 2024", 5, 6⟩)] datedAlbumPage).Date =
        (extractAlbum 10 datedAlbumPage).Date ∧
      (parseAlbum 10 [(datedAlbumPage.url, ⟨"1. 1. 2024", 5, 6⟩)] datedAlbumPage).PhotosCnt =
        (extractAlbum 10 datedAlbumPage).PhotosCnt :=
  ⟨by decide,
    (merge_never_overwrites ⟨"7", "T", "u", "20. 9. 2025", 4, 9, []⟩ ⟨"1. 1. 2024", 5, 6⟩
      " | 20. 9. 2025 " 10 [] datedAlbumPage (by decide)).1.1 (by decide),
    (merge_never_overwrites ⟨"7", "T", "u", "20. 9. 2025", 4, 9, []⟩ ⟨"1. 1. 2024", 5, 6⟩
      " | 20. 9. 2025 " 10 [] datedAlbumPage (by decide)).1.2.1 (by decide),
    (merge_never_overwrites ⟨"7", "T", "u", "20. 9. 2025", 4, 9, []⟩ ⟨"1. 1. 2024", 5, 6⟩
      " | 20. 9. 2025 " 10 [] datedAlbumPage (by decide)).1.2.2.1 (by decide),
    (merge_never_overwrites ⟨"7", "T", "u", "20. 9. 2025", 4, 9, []⟩ ⟨"1. 1. 2024", 5, 6⟩
      " | 20. 9. 2025 " 10 [(datedAlbumPage.url, ⟨"1. 1. 2024", 5, 6⟩)] datedAlbumPage
      (by decide)).2.1 (by decide),
    (merge_never_overwrites ⟨"7", "T", "u", "20. 9. 2025", 4, 9, []⟩ ⟨"1. 1. 2024", 5, 6⟩
      " | 20. 9. 2025 " 10 [(datedAlbumPage.url, ⟨"1. 1. 2024", 5, 6⟩)] datedAlbumPage
      (by decide)).2.2.1 (by decide)⟩

/-! ## Stable insertion sort -/

section Sorting

variable {α : Type} (less : α → α → Bool)

theorem insertRev_perm (x : α) : ∀ l : List α, (insertRev less x l).Perm (x :: l) := by
  intro l
  induction l with
  | nil => exact List.Perm.refl _
  | cons y ys ih =>
    simp only [insertRev]
    split_ifs
    · exact ((List.Perm.cons y ih).trans (List.Perm.swap x y ys))
    · exact List.Perm.refl _

theorem foldl_insertRev_perm : ∀ (xs acc : List α),
    (xs.foldl (fun acc x => insertRev less x acc) acc).Perm (xs ++ acc) := by
  intro xs
  induction xs with
  | nil => intro acc; exact List.Perm.refl _
  | cons x xs ih =>
    intro acc
    rw [List.foldl_cons]
    refine (ih _).trans ?_
    refine (List.Perm.append_left xs (insertRev_perm less x acc)).trans ?_
    simp

theorem SliceStable_perm (xs : List α) : (SliceStable less xs).Perm xs := by
  unfold SliceStable
  refine (List.reverse_perm _).trans ?_
  simpa using foldl_insertRev_perm less xs []

theorem insertRev_pairwise
    (hasymm : ∀ a b, less a b = true → less b a = false)
    (hneg : ∀ a b c, less a b = false → less b c = false → less a c = false)
    (x : α) : ∀ l : List α, l.Pairwise (fun a b => less a b = false) →
      (insertRev less x l).Pairwise (fun a b => less a b = false) := by
  intro l
  induction l with
  | nil => intro _; simp [insertRev]
  | cons y ys ih =>
    intro h
    rw [List.pairwise_cons] at h
    simp only [insertRev]
    by_cases hxy : less x y = true
    · rw [if_pos hxy, List.pairwise_cons]
      refine ⟨?_, ih h.2⟩
      intro z hz
      rcases List.mem_cons.mp ((insertRev_perm less x ys).mem_iff.mp hz) with hzx | hzy
      · rw [hzx]; exact hasymm x y hxy
      · exact h.1 z hzy
    · have hxy2 : less x y = false := by simpa using hxy
      rw [if_neg hxy, List.pairwise_cons, List.pairwise_cons]
      refine ⟨?_, h.1, h.2⟩
      intro z hz
      rcases List.mem_cons.mp hz with hzy | hzy
      · rw [hzy]; exact hxy2
      · exact hneg x y z hxy2 (h.1 z hzy)

theorem foldl_insertRev_pairwise
    (hasymm : ∀ a b, less a b = true → less b a = false)
    (hneg : ∀ a b c, less a b = false → less b c = false → less a c = false) :
    ∀ (xs acc : List α), acc.Pairwise (fun a b => less a b = false) →
      (xs.foldl (fun acc x => insertRev less x acc) acc).Pairwise
        (fun a b => less a b = false) := by
  intro xs
  induction xs with
  | nil => intro acc h; exact h
  | cons x xs ih =>
    intro acc h
    rw [List.foldl_cons]
    exact ih _ (insertRev_pairwise less hasymm hneg x acc h)

/-- The output is sorted: no element is less than an element before it. -/
theorem SliceStable_sorted
    (hasymm : ∀ a b, less a b = true → less b a = false)
    (hneg : ∀ a b c, less a b = false → less b c = false → less a c = false)
    (xs : List α) : (SliceStable less xs).Pairwise (fun a b => less b a = false) := by
  unfold SliceStable
  rw [List.pairwise_reverse]
  exact foldl_insertRev_pairwise less hasymm hneg xs [] List.Pairwise.nil

theorem insertRev_filter (P : α → Bool)
    (hP : ∀ a b, P a = true → P b = true → less a b = false) (x : α) :
    ∀ l : List α, (insertRev less x l).filter P = (x :: l).filter P := by
  intro l
  induction l with
  | nil => simp [insertRev]
  | cons y ys ih =>
    simp only [insertRev]
    by_cases hxy : less x y = true
    · rw [if_pos hxy]
      by_cases hx : P x = true
      · have hy : P y = false := by
          by_contra hy
          have hy2 : P y = true := by simpa using hy
          have := hP x y hx hy2
          rw [hxy] at this
          exact Bool.noConfusion this
        simp only [List.filter_cons, hy, hx, if_true] at ih ⊢
        simpa using ih
      · have hx2 : P x = false := by simpa using hx
        simp only [List.filter_cons, hx2] at ih ⊢
        simp only [Bool.false_eq_true, if_false] at ih ⊢
        rw [ih]
    · rw [if_neg hxy]

theorem foldl_insertRev_filter (P : α → Bool)
    (hP : ∀ a b, P a = true → P b = true → less a b = false) :
    ∀ (xs acc : List α),
      (xs.foldl (fun acc x => insertRev less x acc) acc).filter P =
        (xs.filter P).reverse ++ acc.filter P := by
  intro xs
  induction xs with
  | nil => intro acc; simp
  | cons x xs ih =>
    intro acc
    rw [List.foldl_cons, ih, insertRev_filter less P hP]
    by_cases hx : P x = true
    · simp [List.filter_cons, hx]
    · simp [List.filter_cons, hx]

/-- Stability: elements of a class whose members are not less than one another
keep their input order. -/
theorem SliceStable_filter (P : α → Bool)
    (hP : ∀ a b, P a = true → P b = true → less a b = false) (xs : List α) :
    (SliceStable less xs).filter P = xs.filter P := by
  unfold SliceStable
  rw [List.filter_reverse, foldl_insertRev_filter less P hP]
  simp

/-- A sorted list is determined by its elements and by the order inside every
class of elements that tie: two sorted permutations that agree on the order
inside the classes are equal. -/
theorem stable_sorted_unique (hirr : ∀ a, less a a = false) :
    ∀ (l1 l2 : List α), l1.Perm l2 →
      l1.Pairwise (fun a b => less b a = false) →
      l2.Pairwise (fun a b => less b a = false) →
      (∀ x, l1.filter (fun y => !less x y && !less y x) =
        l2.filter (fun y => !less x y && !less y x)) →
      l1 = l2 := by
  intro l1
  induction l1 with
  | nil => intro l2 hp _ _ _; exact (List.Perm.nil_eq hp)
  | cons a t ih =>
    intro l2 hp h1 h2 hcls
    cases l2 with
    | nil => exact absurd hp.symm (List.nil_perm.not.mpr (by simp))
    | cons b t2 =>
      rw [List.pairwise_cons] at h1 h2
      have hb : b ∈ a :: t := hp.mem_iff.mpr (List.mem_cons_self _ _)
      have ha : a ∈ b :: t2 := hp.mem_iff.mp (List.mem_cons_self _ _)
      have hba : less b a = false := by
        rcases List.mem_cons.mp hb with h | h
        · rw [h]; exact hirr a
        · exact h1.1 b h
      have hab : less a b = false := by
        rcases List.mem_cons.mp ha with h | h
        · rw [h]; exact hirr b
        · exact h2.1 a h
      have hx := hcls a
      simp only [List.filter_cons, hirr a, hab, hba, Bool.not_false, Bool.and_self,
        if_true] at hx
      have heq : a = b := (List.cons.inj hx).1
      subst heq
      have hpt : t.Perm t2 := (List.perm_cons a).mp hp
      have htail : ∀ x, t.filter (fun y => !less x y && !less y x) =
          t2.filter (fun y => !less x y && !less y x) := by
        intro x
        have hx2 := hcls x
        simp only [List.filter_cons] at hx2
        split_ifs at hx2
        · exact (List.cons.inj hx2).2
        · exact hx2
      rw [ih t2 hpt h1.2 h2.2 htail]

/-- The model of `sort.SliceStable` is the only stable sort: for a strict weak
order, every sorted permutation of the input that keeps the input order inside
each class of ties is the output of the insertion sort. -/
theorem SliceStable_unique
    (hasymm : ∀ a b, less a b = true → less b a = false)
    (hneg : ∀ a b c, less a b = false → less b c = false → less a c = false)
    (xs out : List α) (hperm : out.Perm xs)
    (hsorted : out.Pairwise (fun a b => less b a = false))
    (hstable : ∀ x, out.filter (fun y => !less x y && !less y x) =
      xs.filter (fun y => !less x y && !less y x)) :
    out = SliceStable less xs := by
  have hirr : ∀ a, less a a = false := by
    intro a
    by_contra h
    have h1 : less a a = true := by simpa using h
    have h2 := hasymm a a h1
    rw [h1] at h2
    exact Bool.noConfusion h2
  refine stable_sorted_unique less hirr out _ (hperm.trans (SliceStable_perm less xs).symm)
    hsorted (SliceStable_sorted less hasymm hneg xs) ?_
  intro x
  rw [hstable x, SliceStable_filter less _ _ xs]
  intro a b ha hb
  simp only [Bool.and_eq_true, Bool.not_eq_true'] at ha hb
  exact hneg a x b ha.2 hb.1

end Sorting

/-! ## The comparators are strict weak orders -/

theorem lexLess_asymm : ∀ a b : List Char, lexLess a b = true → lexLess b a = false := by
  intro a
  induction a with
  | nil => intro b; cases b <;> simp [lexLess]
  | cons x xs ih =>
    intro b
    cases b with
    | nil => simp [lexLess]
    | cons y ys =>
      simp only [lexLess]
      by_cases h1 : x.toNat < y.toNat
      · have h2 : ¬ y.toNat < x.toNat := by omega
        simp [h1, h2]
      · by_cases h2 : y.toNat < x.toNat
        · simp [h1, h2]
        · simpa [h1, h2] using ih ys

theorem lexLess_negtrans : ∀ a b c : List Char,
    lexLess a b = false → lexLess b c = false → lexLess a c = false := by
  intro a
  induction a with
  | nil =>
    intro b c hab hbc
    cases b with
    | nil => exact hbc
    | cons y ys => simp [lexLess] at hab
  | cons x xs ih =>
    intro b c hab hbc
    cases b with
    | nil =>
      cases c with
      | nil => simp [lexLess]
      | cons z zs => simp [lexLess] at hbc
    | cons y ys =>
      cases c with
      | nil => simp [lexLess]
      | cons z zs =>
        simp only [lexLess] at hab hbc ⊢
        by_cases h1 : x.toNat < y.toNat
        · simp [h1] at hab
        · by_cases h2 : y.toNat < z.toNat
          · simp [h2] at hbc
          · by_cases h3 : y.toNat < x.toNat
            · have h4 : ¬ x.toNat < z.toNat := by omega
              have h5 : z.toNat < x.toNat := by omega
              simp [h4, h5]
            · by_cases h6 : z.toNat < y.toNat
              · have h4 : ¬ x.toNat < z.toNat := by omega
                have h5 : z.toNat < x.toNat := by omega
                simp [h4, h5]
              · have h4 : ¬ x.toNat < z.toNat := by omega
                have h5 : ¬ z.toNat < x.toNat := by omega
                simp only [h1, h3, if_false] at hab
                simp only [h2, h6, if_false] at hbc
                simpa [h4, h5] using ih ys zs hab hbc

theorem albumLess_asymm (a b : Album) : albumLess a b = true → albumLess b a = false := by
  unfold albumLess
  cases parseCzDate a.Date <;> cases parseCzDate b.Date <;> simp
  · exact lexLess_asymm _ _
  · intro h; omega

theorem albumLess_negtrans (a b c : Album) :
    albumLess a b = false → albumLess b c = false → albumLess a c = false := by
  unfold albumLess
  cases parseCzDate a.Date <;> cases parseCzDate b.Date <;> cases parseCzDate c.Date <;> simp
  · exact lexLess_negtrans _ _ _
  · intro h1 h2; omega

theorem entryLess_asymm (a b : entry) : entryLess a b = true → entryLess b a = false := by
  unfold entryLess
  cases parseDate a.Info.Date <;> cases parseDate b.Info.Date <;> simp
  · exact lexLess_asymm _ _
  · intro h; omega

theorem entryLess_negtrans (a b c : entry) :
    entryLess a b = false → entryLess b c = false → entryLess a c = false := by
  unfold entryLess
  cases parseDate a.Info.Date <;> cases parseDate b.Info.Date <;>
    cases parseDate c.Info.Date <;> simp
  · exact lexLess_negtrans _ _ _
  · intro h1 h2; omega

/-! ## Parsing the rendered dates -/

theorem digit_facts : ∀ k, k < 10 →
    isDigit (digitChar k) = true ∧ digitVal (digitChar k) = k ∧
      isSpace (digitChar k) = false := by
  decide

theorem isDigit_not_blank (c : Char) (h : isDigit c = true) : c ≠ ' ' := by
  intro hc
  rw [hc] at h
  exact absurd h (by decide)

theorem isDigit_not_space (c : Char) (h : isDigit c = true) : isSpace c = false := by
  simp only [isDigit, Bool.and_eq_true, decide_eq_true_eq] at h
  simp only [isSpace]
  have h1 := h.1
  have h2 := h.2
  simp
  omega

theorem daysIn_le (m : Nat) (y : Int) (h1 : 1 ≤ m) (h2 : m ≤ 12) : daysIn m y ≤ 31 := by
  unfold daysIn
  interval_cases m
  all_goals simp only [daysBefore]
  all_goals split_ifs
  all_goals simp


theorem skip_nil (v : List Char) : skip v [] = some v := by
  cases v <;> rfl

theorem skip_dot (v : List Char) : skip ('.' :: v) ['.'] = some v := by
  cases v <;> simp [skip, skipLoop]

theorem skip_dot_blank (v : List Char) :
    skip ('.' :: ' ' :: v) ['.', ' '] = some (cutspace v) := by
  simp [skip, skipLoop, cutspace]

theorem skip_dot_blank_fail (c : Char) (v : List Char) (hc : c ≠ ' ') :
    skip ('.' :: c :: v) ['.', ' '] = none := by
  simp [skip, skipLoop, hc]

theorem cutspace_cons (c : Char) (v : List Char) (hc : c ≠ ' ') :
    cutspace (c :: v) = c :: v := by
  simp [cutspace, hc]

/-- A text that starts with a digit. -/
theorem num1or2_head (n : Nat) (hn : n < 100) :
    ∃ c t, num1or2 n = c :: t ∧ isDigit c = true := by
  unfold num1or2
  split_ifs with h
  · exact ⟨_, _, rfl, (digit_facts n h).1⟩
  · exact ⟨_, _, rfl, (digit_facts (n / 10) (by omega)).1⟩

theorem num2_head (n : Nat) (hn : n < 100) :
    ∃ c t, num2 n = c :: t ∧ isDigit c = true :=
  ⟨_, _, rfl, (digit_facts (n / 10) (by omega)).1⟩

theorem num4_head (y : Nat) (hy : y ≤ 9999) :
    ∃ c t, num4 y = c :: t ∧ isDigit c = true :=
  ⟨_, _, rfl, (digit_facts (y / 1000) (by omega)).1⟩

theorem getnum_num1or2 (n : Nat) (hn : n < 100) (rest : List Char) :
    getnum (num1or2 n ++ '.' :: rest) false = some (n, '.' :: rest) := by
  unfold num1or2
  have hdot : isDigit '.' = false := by decide
  split_ifs with h
  · obtain ⟨h1, h2, -⟩ := digit_facts n h
    simp [getnum, h1, h2, hdot]
  · obtain ⟨h1, h2, -⟩ := digit_facts (n / 10) (by omega)
    obtain ⟨h3, h4, -⟩ := digit_facts (n % 10) (by omega)
    simp only [getnum, List.cons_append, List.nil_append, h1, h2, h3, h4]
    simp
    omega

theorem getnum_num2 (n : Nat) (hn : n < 100) (rest : List Char) :
    getnum (num2 n ++ rest) false = some (n, rest) := by
  unfold num2
  obtain ⟨h1, h2, -⟩ := digit_facts (n / 10) (by omega)
  obtain ⟨h3, h4, -⟩ := digit_facts (n % 10) (by omega)
  simp only [getnum, List.cons_append, List.nil_append, h1, h2, h3, h4]
  simp
  omega

theorem parseStd_year (y : Nat) (hy : y ≤ 9999) (f : Fields) :
    parseStd .stdLongYear (num4 y) f = some ({ f with year := (y : Int) }, []) := by
  obtain ⟨a1, a2, -⟩ := digit_facts (y / 1000) (by omega)
  obtain ⟨b1, b2, -⟩ := digit_facts (y / 100 % 10) (by omega)
  obtain ⟨c1, c2, -⟩ := digit_facts (y / 10 % 10) (by omega)
  obtain ⟨d1, d2, -⟩ := digit_facts (y % 10) (by omega)
  simp [parseStd, num4, atoi, a1, a2, b1, b2, c1, c2, d1, d2]
  omega

theorem parseStd_day (tok rest : List Char) (n : Nat) (f : Fields)
    (h : getnum (tok ++ rest) false = some (n, rest)) :
    parseStd .stdDay (tok ++ rest) f = some ({ f with day := (n : Int) }, rest) := by
  simp [parseStd, h]

theorem parseStd_month (tok rest : List Char) (n : Nat) (f : Fields) (h1 : 1 ≤ n) (h2 : n ≤ 12)
    (h : getnum (tok ++ rest) false = some (n, rest)) :
    parseStd .stdNumMonth (tok ++ rest) f = some ({ f with month := (n : Int) }, rest) := by
  simp [parseStd, h]
  omega

theorem dropWhile_append_cons (p : Char → Bool) (c : Char) (t : List Char) (hc : p c = false) :
    ∀ a : List Char, (∀ x ∈ a, p x = true) → (a ++ c :: t).dropWhile p = c :: t := by
  intro a
  induction a with
  | nil => intro _; simp [List.dropWhile_cons, hc]
  | cons x xs ih =>
    intro h
    have hx : p x = true := h x (List.mem_cons_self _ _)
    simp only [List.cons_append, List.dropWhile_cons, hx, if_true]
    exact ih (fun y hy => h y (List.mem_cons_of_mem _ hy))

theorem rdropWhile_append_concat (p : Char → Bool) (c : Char) (t : List Char) (hc : p c = false)
    (b : List Char) (hb : ∀ x ∈ b, p x = true) :
    ((t ++ [c]) ++ b).rdropWhile p = t ++ [c] := by
  unfold List.rdropWhile
  rw [List.reverse_append, List.reverse_append, List.reverse_singleton, List.singleton_append,
    dropWhile_append_cons p c t.reverse hc b.reverse (fun x hx => hb x (List.mem_reverse.mp hx))]
  simp

/-- Trimming removes the white space around a text that starts and ends with
a character that is no white space. -/
theorem trimChars_sandwich (pre post mid : List Char) (c0 c1 : Char)
    (h0 : isSpace c0 = false) (h1 : isSpace c1 = false)
    (hpre : ∀ x ∈ pre, isSpace x = true) (hpost : ∀ x ∈ post, isSpace x = true) :
    trimChars (pre ++ (c0 :: mid ++ [c1]) ++ post) = c0 :: mid ++ [c1] := by
  unfold trimChars
  have e1 : pre ++ (c0 :: mid ++ [c1]) ++ post = pre ++ c0 :: (mid ++ [c1] ++ post) := by simp
  rw [e1, dropWhile_append_cons isSpace c0 _ h0 pre hpre]
  have e2 : c0 :: (mid ++ [c1] ++ post) = ((c0 :: mid) ++ [c1]) ++ post := by simp
  rw [e2, rdropWhile_append_concat isSpace c1 (c0 :: mid) h1 post hpost]

theorem cutspace_digit (tok rest : List Char) (h : ∃ c t, tok = c :: t ∧ isDigit c = true) :
    cutspace (tok ++ rest) = tok ++ rest := by
  obtain ⟨c, t, rfl, hc⟩ := h
  exact cutspace_cons c _ (isDigit_not_blank c hc)

theorem skip_dot_blank_digit (tok rest : List Char)
    (h : ∃ c t, tok = c :: t ∧ isDigit c = true) :
    skip ('.' :: (tok ++ rest)) ['.', ' '] = none := by
  obtain ⟨c, t, rfl, hc⟩ := h
  exact skip_dot_blank_fail c _ (isDigit_not_blank c hc)

theorem data_empty : ("" : String).data = [] := rfl

theorem data_dot : ("." : String).data = ['.'] := rfl

theorem data_dot_blank : (". " : String).data = ['.', ' '] := rfl

/-- The end of every successful parse: the fields are a valid date. -/
theorem Parse_finish (layout : Layout) (value : String) (d m y : Nat)
    (hm1 : 1 ≤ m) (hd1 : 1 ≤ d) (hd2 : (d : Int) ≤ daysIn m y)
    (h : parseLoop layout.suffix layout.chunks value.data { year := 0, month := -1, day := -1 } =
      some { year := y, month := m, day := d }) :
    Parse layout value = some (Date y m d) := by
  unfold Parse
  rw [h]
  have h1 : ¬ ((m : Int) < 0) := by omega
  have h2 : ¬ ((d : Int) < 0) := by omega
  have h3 : ¬ ((d : Int) < 1 ∨ (d : Int) > daysIn m y) := by omega
  simp only [h1, h2, if_false, h3]

theorem cutspace_num4 (y : Nat) (hy : y ≤ 9999) : cutspace (num4 y) = num4 y := by
  have h := cutspace_digit (num4 y) [] (num4_head y hy)
  simpa using h

theorem skip_dot_blank_num4 (y : Nat) (hy : y ≤ 9999) :
    skip ('.' :: num4 y) ['.', ' '] = none := by
  have h := skip_dot_blank_digit (num4 y) [] (num4_head y hy)
  simpa using h

theorem Parse_layout1_spaced (tokd tokm : List Char) (d m y : Nat)
    (hd : ∀ rest, getnum (tokd ++ '.' :: rest) false = some (d, '.' :: rest))
    (hm : ∀ rest, getnum (tokm ++ '.' :: rest) false = some (m, '.' :: rest))
    (hmh : ∃ c t, tokm = c :: t ∧ isDigit c = true)
    (hy : y ≤ 9999) (hm1 : 1 ≤ m) (hm2 : m ≤ 12) (hd1 : 1 ≤ d) (hd2 : (d : Int) ≤ daysIn m y) :
    Parse layout1 ⟨tokd ++ '.' :: ' ' :: (tokm ++ '.' :: ' ' :: num4 y)⟩ =
      some (Date y m d) := by
  apply Parse_finish layout1 _ d m y hm1 hd1 hd2
  simp only [layout1, parseLoop, data_empty, data_dot_blank, skip_nil]
  rw [parseStd_day tokd _ d _ (hd _)]
  simp only [skip_dot_blank]
  rw [cutspace_digit tokm _ hmh, parseStd_month tokm _ m _ hm1 hm2 (hm _)]
  simp only [skip_dot_blank]
  rw [cutspace_num4 y hy, parseStd_year y hy]
  simp

theorem Parse_layout1_halfSpaced (tokd tokm : List Char) (d m y : Nat)
    (hd : ∀ rest, getnum (tokd ++ '.' :: rest) false = some (d, '.' :: rest))
    (hm : ∀ rest, getnum (tokm ++ '.' :: rest) false = some (m, '.' :: rest))
    (hmh : ∃ c t, tokm = c :: t ∧ isDigit c = true)
    (hy : y ≤ 9999) (hm1 : 1 ≤ m) (hm2 : m ≤ 12) :
    Parse layout1 ⟨tokd ++ '.' :: ' ' :: (tokm ++ '.' :: num4 y)⟩ = none := by
  simp only [Parse, layout1, parseLoop, data_empty, data_dot_blank, skip_nil]
  rw [parseStd_day tokd _ d _ (hd _)]
  simp only [skip_dot_blank]
  rw [cutspace_digit tokm _ hmh, parseStd_month tokm _ m _ hm1 hm2 (hm _)]
  simp only [skip_dot_blank_num4 y hy]

theorem Parse_layout2_halfSpaced (tokd tokm : List Char) (d m y : Nat)
    (hd : ∀ rest, getnum (tokd ++ '.' :: rest) false = some (d, '.' :: rest))
    (hm : ∀ rest, getnum (tokm ++ '.' :: rest) false = some (m, '.' :: rest))
    (hmh : ∃ c t, tokm = c :: t ∧ isDigit c = true)
    (hy : y ≤ 9999) (hm1 : 1 ≤ m) (hm2 : m ≤ 12) (hd1 : 1 ≤ d) (hd2 : (d : Int) ≤ daysIn m y) :
    Parse layout2 ⟨tokd ++ '.' :: ' ' :: (tokm ++ '.' :: num4 y)⟩ = some (Date y m d) := by
  apply Parse_finish layout2 _ d m y hm1 hd1 hd2
  simp only [layout2, parseLoop, data_empty, data_dot_blank, data_dot, skip_nil]
  rw [parseStd_day tokd _ d _ (hd _)]
  simp only [skip_dot_blank]
  rw [cutspace_digit tokm _ hmh, parseStd_month tokm _ m _ hm1 hm2 (hm _)]
  simp only [skip_dot]
  rw [parseStd_year y hy]
  simp

theorem Parse_layout1_tight (tokd tokm : List Char) (d : Nat) (rest : List Char)
    (hd : ∀ rest, getnum (tokd ++ '.' :: rest) false = some (d, '.' :: rest))
    (hmh : ∃ c t, tokm = c :: t ∧ isDigit c = true) :
    Parse layout1 ⟨tokd ++ '.' :: (tokm ++ rest)⟩ = none := by
  simp only [Parse, layout1, parseLoop, data_empty, data_dot_blank, skip_nil]
  rw [parseStd_day tokd _ d _ (hd _)]
  simp only [skip_dot_blank_digit tokm rest hmh]

theorem Parse_layout2_tight (tokd tokm : List Char) (d : Nat) (rest : List Char)
    (hd : ∀ rest, getnum (tokd ++ '.' :: rest) false = some (d, '.' :: rest))
    (hmh : ∃ c t, tokm = c :: t ∧ isDigit c = true) :
    Parse layout2 ⟨tokd ++ '.' :: (tokm ++ rest)⟩ = none := by
  simp only [Parse, layout2, parseLoop, data_empty, data_dot_blank, skip_nil]
  rw [parseStd_day tokd _ d _ (hd _)]
  simp only [skip_dot_blank_digit tokm rest hmh]

theorem Parse_layout3_tight (tokd tokm : List Char) (d m y : Nat)
    (hd : ∀ rest, getnum (tokd ++ '.' :: rest) false = some (d, '.' :: rest))
    (hm : ∀ rest, getnum (tokm ++ '.' :: rest) false = some (m, '.' :: rest))
    (hy : y ≤ 9999) (hm1 : 1 ≤ m) (hm2 : m ≤ 12) (hd1 : 1 ≤ d) (hd2 : (d : Int) ≤ daysIn m y) :
    Parse layout3 ⟨tokd ++ '.' :: (tokm ++ '.' :: num4 y)⟩ = some (Date y m d) := by
  apply Parse_finish layout3 _ d m y hm1 hd1 hd2
  simp only [layout3, parseLoop, data_empty, data_dot, skip_nil]
  rw [parseStd_day tokd _ d _ (hd _)]
  simp only [skip_dot]
  rw [parseStd_month tokm _ m _ hm1 hm2 (hm _)]
  simp only [skip_dot]
  rw [parseStd_year y hy]
  simp

theorem trimChars_blank (l : List Char) (h : ∀ c ∈ l, isSpace c = true) : trimChars l = [] := by
  unfold trimChars
  rw [List.dropWhile_eq_nil_iff.mpr h]
  rfl

theorem parse_of_trimmed (l r : List Char) (t : Int) (hne : r ≠ [])
    (htrim : trimChars l = r) (hparse : firstParse layouts ⟨r⟩ = some t) :
    parseCzDate ⟨l⟩ = some t ∧ parseDate ⟨l⟩ = some t := by
  have hs : TrimSpace ⟨l⟩ = ⟨r⟩ := by simp [TrimSpace, htrim]
  have hne2 : (⟨r⟩ : String) ≠ "" := by
    intro h
    exact hne (congrArg String.data h)
  simp only [parseCzDate, parseDate, hs, if_neg hne2, hparse, and_self]

/-- Every rendering starts and ends with a digit. -/
theorem render_shape (tok middle : List Char) (y : Nat)
    (h : ∃ c t, tok = c :: t ∧ isDigit c = true) :
    ∃ c0 mid c1, tok ++ middle ++ num4 y = c0 :: mid ++ [c1] ∧
      isSpace c0 = false ∧ isSpace c1 = false := by
  obtain ⟨c, t, rfl, hc⟩ := h
  refine ⟨c, t ++ middle ++ [digitChar (y / 1000), digitChar (y / 100 % 10),
    digitChar (y / 10 % 10)], digitChar (y % 10), ?_, isDigit_not_space c hc,
    (digit_facts (y % 10) (by omega)).2.2⟩
  simp [num4]

theorem parse_rendered (pre post tok middle : List Char) (y : Nat) (t : Int)
    (h : ∃ c t, tok = c :: t ∧ isDigit c = true)
    (hpre : ∀ c ∈ pre, isSpace c = true) (hpost : ∀ c ∈ post, isSpace c = true)
    (hparse : firstParse layouts ⟨tok ++ middle ++ num4 y⟩ = some t) :
    parseCzDate ⟨pre ++ (tok ++ middle ++ num4 y) ++ post⟩ = some t ∧
      parseDate ⟨pre ++ (tok ++ middle ++ num4 y) ++ post⟩ = some t := by
  obtain ⟨c0, mid, c1, hshape, h0, h1⟩ := render_shape tok middle y h
  refine parse_of_trimmed _ _ t ?_ ?_ hparse
  · rw [hshape]; simp
  · rw [hshape]
    exact trimChars_sandwich pre post mid c0 c1 h0 h1 hpre hpost

/-- C8: parse_date round-trips the four layouts: for every valid calendar date
with a four-digit year, its renderings as D. M. YYYY, D. M.YYYY, D.M.YYYY and
DD.MM.YYYY, with any white space around them, parse (in parseCzDate and in
parseDate) to the timestamp of midnight UTC of that date; a string that is
empty or white space only, and a string that none of the four layouts parses,
give ok = false. -/
theorem parse_date_roundtrip (d m y : Nat) (pre post : List Char)
    (hy : y ≤ 9999) (hm1 : 1 ≤ m) (hm2 : m ≤ 12) (hd1 : 1 ≤ d)
    (hd2 : (d : Int) ≤ daysIn m y)
    (hpre : ∀ c ∈ pre, isSpace c = true) (hpost : ∀ c ∈ post, isSpace c = true) :
    (∀ r ∈ [renderSpaced d m y, renderHalfSpaced d m y, renderTight d m y,
          renderPadded d m y],
        parseCzDate ⟨pre ++ r ++ post⟩ = some (Date y m d) ∧
          parseDate ⟨pre ++ r ++ post⟩ = some (Date y m d)) ∧
      (∀ s : String, (∀ c ∈ s.data, isSpace c = true) →
        parseCzDate s = none ∧ parseDate s = none) ∧
      (∀ s : String, (∀ layout ∈ layouts, Parse layout (TrimSpace s) = none) →
        parseCzDate s = none ∧ parseDate s = none) := by
  have hd100 : d < 100 := by
    have := daysIn_le m y hm1 hm2
    omega
  have hm100 : m < 100 := by omega
  refine ⟨?_, ?_, ?_⟩
  · intro r hr
    simp only [List.mem_cons, List.mem_singleton, List.not_mem_nil, or_false] at hr
    rcases hr with rfl | rfl | rfl | rfl
    · have e : renderSpaced d m y =
          num1or2 d ++ ('.' :: ' ' :: (num1or2 m ++ ['.', ' '])) ++ num4 y := by
        simp [renderSpaced]
      rw [e]
      apply parse_rendered pre post _ _ y _ (num1or2_head d hd100) hpre hpost
      rw [← e]
      simp only [layouts, firstParse, renderSpaced]
      rw [Parse_layout1_spaced _ _ d m y (getnum_num1or2 d hd100) (getnum_num1or2 m hm100)
        (num1or2_head m hm100) hy hm1 hm2 hd1 hd2]
    · have e : renderHalfSpaced d m y =
          num1or2 d ++ ('.' :: ' ' :: (num1or2 m ++ ['.'])) ++ num4 y := by
        simp [renderHalfSpaced]
      rw [e]
      apply parse_rendered pre post _ _ y _ (num1or2_head d hd100) hpre hpost
      rw [← e]
      simp only [layouts, firstParse, renderHalfSpaced]
      rw [Parse_layout1_halfSpaced _ _ d m y (getnum_num1or2 d hd100) (getnum_num1or2 m hm100)
        (num1or2_head m hm100) hy hm1 hm2,
        Parse_layout2_halfSpaced _ _ d m y (getnum_num1or2 d hd100) (getnum_num1or2 m hm100)
        (num1or2_head m hm100) hy hm1 hm2 hd1 hd2]
    · have e : renderTight d m y =
          num1or2 d ++ ('.' :: (num1or2 m ++ ['.'])) ++ num4 y := by
        simp [renderTight]
      rw [e]
      apply parse_rendered pre post _ _ y _ (num1or2_head d hd100) hpre hpost
      rw [← e]
      simp only [layouts, firstParse, renderTight]
      rw [Parse_layout1_tight _ _ d _ (getnum_num1or2 d hd100) (num1or2_head m hm100),
        Parse_layout2_tight _ _ d _ (getnum_num1or2 d hd100) (num1or2_head m hm100),
        Parse_layout3_tight _ _ d m y (getnum_num1or2 d hd100) (getnum_num1or2 m hm100)
          hy hm1 hm2 hd1 hd2]
    · have e : renderPadded d m y =
          num2 d ++ ('.' :: (num2 m ++ ['.'])) ++ num4 y := by
        simp [renderPadded]
      rw [e]
      apply parse_rendered pre post _ _ y _ (num2_head d hd100) hpre hpost
      rw [← e]
      simp only [layouts, firstParse, renderPadded]
      rw [Parse_layout1_tight _ _ d _ (fun rest => getnum_num2 d hd100 _) (num2_head m hm100),
        Parse_layout2_tight _ _ d _ (fun rest => getnum_num2 d hd100 _) (num2_head m hm100),
        Parse_layout3_tight _ _ d m y (fun rest => getnum_num2 d hd100 _)
          (fun rest => getnum_num2 m hm100 _) hy hm1 hm2 hd1 hd2]
  · intro s hs
    have : TrimSpace s = "" := by
      simp only [TrimSpace, trimChars_blank s.data hs]
    simp [parseCzDate, parseDate, this]
  · intro s hs
    have h1 := hs layout1 (by simp [layouts])
    have h2 := hs layout2 (by simp [layouts])
    have h3 := hs layout3 (by simp [layouts])
    have h4 := hs layout4 (by simp [layouts])
    simp [parseCzDate, parseDate, layouts, firstParse, h1, h2, h3, h4]

/-- Witness for C8: the 20th of September 2025, written D. M. YYYY between a
blank and a line break, parses to 1758326400, midnight UTC of that day. -/
theorem parse_date_roundtrip_witness :
    String.mk ([' '] ++ renderSpaced 20 9 2025 ++ ['\n']) = " 20. 9. 2025\n" ∧
      Date 2025 9 20 = 1758326400 ∧
      parseCzDate ⟨[' '] ++ renderSpaced 20 9 2025 ++ ['\n']⟩ = some (Date 2025 9 20) ∧
      parseCzDate "   " = none :=
  ⟨by decide, by decide,
    ((parse_date_roundtrip 20 9 2025 [' '] ['\n'] (by decide) (by decide) (by decide)
      (by decide) (by decide) (by decide) (by decide)).1 (renderSpaced 20 9 2025)
      (by simp)).1,
    ((parse_date_roundtrip 20 9 2025 [' '] ['\n'] (by decide) (by decide) (by decide)
      (by decide) (by decide) (by decide) (by decide)).2.1 "   " (by decide)).1⟩

/-! ## The final sort -/

theorem foldl_addAlbum (arrivals acc : List Album) :
    arrivals.foldl addAlbum acc = acc ++ arrivals := by
  induction arrivals generalizing acc with
  | nil => simp
  | cons a t ih => rw [List.foldl_cons, ih, addAlbum]; simp

theorem resultSet_eq (arrivals : List Album) : resultSet arrivals = arrivals := by
  simp [resultSet, foldl_addAlbum]

/-- C3: the final sort returns a permutation of the result set in which, for
positions i < j, two parseable dates are in descending order of timestamp and
an album without a parseable date never stands before one with a parseable
date. -/
theorem finalSort_order (albums : List Album) :
    (finalSort albums).Perm albums ∧
      ∀ (i j : Nat) (hij : i < j) (hj : j < (finalSort albums).length),
        (∀ ti tj, parseCzDate ((finalSort albums)[i]).Date = some ti →
          parseCzDate ((finalSort albums)[j]).Date = some tj → tj ≤ ti) ∧
        ¬ (parseCzDate ((finalSort albums)[i]).Date = none ∧
          (parseCzDate ((finalSort albums)[j]).Date).isSome = true) := by
  refine ⟨SliceStable_perm albumLess albums, ?_⟩
  intro i j hij hj
  have hs := SliceStable_sorted albumLess albumLess_asymm albumLess_negtrans albums
  have hlt := (List.pairwise_iff_getElem.mp hs) i j (lt_trans hij hj) hj hij
  change albumLess ((finalSort albums)[j]) ((finalSort albums)[i]) = false at hlt
  unfold albumLess at hlt
  constructor
  · intro ti tj hi hjj
    rw [hi, hjj] at hlt
    simpa using hlt
  · rintro ⟨hi, hjj⟩
    obtain ⟨tj, htj⟩ := Option.isSome_iff_exists.mp hjj
    rw [hi, htj] at hlt
    simp at hlt

/-- Witness for C3: an undated album in front of albums of 2024 and 2025 is
sorted to 2025, 2024, undated; positions 0 and 1 carry the timestamps
1758326400 and 1704067200. -/
theorem finalSort_order_witness :
    (finalSort mixedAlbums).map (fun a => a.Date) = ["20.09.2025", "1. 1. 2024", ""] ∧
      (0 < 1 ∧ 1 < (finalSort mixedAlbums).length) ∧
      (1704067200 : Int) ≤ 1758326400 :=
  ⟨by decide, ⟨by decide, by decide⟩,
    ((finalSort_order mixedAlbums).2 0 1 (by decide) (by decide)).1 1758326400 1704067200
      (by decide) (by decide)⟩

/-- C4: the final sort is stable: the albums whose dates parse to one and the
same timestamp stand in the output in their order of insertion into the result
set. -/
theorem finalSort_stable (arrivals : List Album) (t : Int) :
    (finalSort (resultSet arrivals)).filter (fun a => decide (parseCzDate a.Date = some t)) =
      arrivals.filter (fun a => decide (parseCzDate a.Date = some t)) := by
  rw [resultSet_eq]
  apply SliceStable_filter
  intro a b ha hb
  simp only [decide_eq_true_eq] at ha hb
  simp [albumLess, ha, hb]

theorem mergePrelim_Photos (e : Album) (p : prelimInfo) :
    (mergePrelim e p).Photos = e.Photos := by
  simp only [mergePrelim]
  split_ifs <;> rfl

theorem parseAlbum_Photos (L : Int) (prelim : List (String × prelimInfo)) (page : AlbumPage) :
    (parseAlbum L prelim page).Photos = (scanPhotos L page).photos := by
  simp only [parseAlbum]
  split
  · rw [mergePrelim_Photos]
    rfl
  · rfl

theorem limitTake_nil {α : Type} (L c : Int) : limitTake L c ([] : List α) = [] := by
  unfold limitTake
  split_ifs <;> simp

theorem limitTake_reached {α : Type} (L c : Int) (l : List α) (h : L > 0 ∧ c ≥ L) :
    limitTake L c l = [] := by
  unfold limitTake
  have : (L - c).toNat = 0 := by omega
  simp [h.1, this]

theorem limitTake_cons {α : Type} (L c : Int) (a : α) (l : List α) (h : ¬ (L > 0 ∧ c ≥ L)) :
    limitTake L c (a :: l) = a :: limitTake L (c + 1) l := by
  unfold limitTake
  by_cases hL : L > 0
  · have hc : (L - c).toNat = (L - (c + 1)).toNat + 1 := by omega
    simp [hL, hc]
  · simp [hL]

/-- The first scan from any state: it appends the photos of the accepted
elements that the limit still admits and counts them. -/
theorem tier1_foldl (L : Int) (page : AlbumPage) :
    ∀ (l : List PhotoElem) (st : ScanState),
      l.foldl (tier1Each L page) st =
        { count := st.count + ((limitTake L st.count (l.filter tier1Accepts)).length : Nat),
          photos := st.photos ++
            (limitTake L st.count (l.filter tier1Accepts)).map (tier1Photo page) } := by
  intro l
  induction l with
  | nil => intro st; simp [limitTake_nil]
  | cons s l ih =>
    intro st
    rw [List.foldl_cons, ih]
    by_cases hlim : L > 0 ∧ st.count ≥ L
    · simp [tier1Each, hlim, limitTake_reached L st.count _ hlim]
    · by_cases hacc : tier1Accepts s = true
      · have h1 : ¬ (TrimSpace s.dataId = "" ∨ photoIDRe (TrimSpace s.dataId) = false) := by
          simp only [tier1Accepts, Bool.and_eq_true, decide_eq_true_eq] at hacc
          simp [hacc.1, hacc.2]
        have e1 : tier1Each L page st s =
            { count := st.count + 1, photos := st.photos ++ [tier1Photo page s] } := by
          simp only [tier1Each, if_neg hlim, if_neg h1, tier1Photo]
        rw [e1, List.filter_cons_of_pos hacc, limitTake_cons L st.count s _ hlim]
        simp only [List.length_cons, List.map_cons, List.append_assoc, List.singleton_append,
          ScanState.mk.injEq, and_true]
        push_cast
        ring
      · have h1 : TrimSpace s.dataId = "" ∨ photoIDRe (TrimSpace s.dataId) = false := by
          simp only [tier1Accepts, Bool.and_eq_true, decide_eq_true_eq, not_and] at hacc
          by_cases h0 : TrimSpace s.dataId = ""
          · exact Or.inl h0
          · exact Or.inr (by simpa using hacc h0)
        have e1 : tier1Each L page st s = st := by
          simp only [tier1Each, if_neg hlim, if_pos h1]
        rw [e1, List.filter_cons_of_neg hacc]

theorem tier1Out_eq (L : Int) (page : AlbumPage) :
    tier1Out L page = (limitTake L 0 (tier1Matches page)).map (tier1Photo page) := by
  simp [tier1Out, tier1_foldl, tier1Matches]

theorem limitTake_zero_ne_nil {α : Type} (L : Int) (l : List α) (h : l ≠ []) :
    limitTake L 0 l ≠ [] := by
  unfold limitTake
  split_ifs with hL
  · have : (L - 0).toNat ≠ 0 := by omega
    simp [h, this, hL]
  · exact h

theorem limitTake_zero_length {α : Type} (L : Int) (l : List α) :
    (L > 0 → (((limitTake L 0 l).length : Nat) : Int) = min (l.length : Int) L) ∧
      (L = 0 → (limitTake L 0 l).length = l.length) := by
  unfold limitTake
  constructor
  · intro hL
    simp only [hL, if_true, List.length_take, sub_zero]
    omega
  · intro hL
    simp [hL]

theorem foldl_count_photos {α : Type} (step : ScanState → α → ScanState)
    (hstep : ∀ st a, step st a = st ∨
      ∃ x, step st a = { count := st.count + 1, photos := st.photos ++ [x] }) :
    ∀ (l : List α) (st : ScanState), st.count = (st.photos.length : Nat) →
      (l.foldl step st).count = ((l.foldl step st).photos.length : Nat) := by
  intro l
  induction l with
  | nil => intro st h; simpa using h
  | cons a l ih =>
    intro st h
    rw [List.foldl_cons]
    apply ih
    rcases hstep st a with h1 | ⟨x, h1⟩
    · rw [h1]; exact h
    · rw [h1]
      simp only [List.length_append, List.length_singleton]
      push_cast
      omega

theorem tier1Each_step (L : Int) (page : AlbumPage) (st : ScanState) (s : PhotoElem) :
    tier1Each L page st s = st ∨
      ∃ x, tier1Each L page st s = { count := st.count + 1, photos := st.photos ++ [x] } := by
  simp only [tier1Each]
  split_ifs <;> first | exact Or.inl rfl | exact Or.inr ⟨_, rfl⟩

theorem tier2Each_step (L : Int) (page : AlbumPage) (st : ScanState) (a : String) :
    tier2Each L page st a = st ∨
      ∃ x, tier2Each L page st a = { count := st.count + 1, photos := st.photos ++ [x] } := by
  simp only [tier2Each]
  repeat' split
  all_goals first | exact Or.inl rfl | exact Or.inr ⟨_, rfl⟩

theorem tier3Each_step (L : Int) (page : AlbumPage) (st : ScanState) (a : String) :
    tier3Each L page st a = st ∨
      ∃ x, tier3Each L page st a = { count := st.count + 1, photos := st.photos ++ [x] } := by
  simp only [tier3Each]
  repeat' split
  all_goals first | exact Or.inl rfl | exact Or.inr ⟨_, rfl⟩

theorem scanState_zero (st : ScanState) (h : st.count = (st.photos.length : Nat))
    (h0 : st.count = 0) : st = { count := 0, photos := [] } := by
  obtain ⟨c, ph⟩ := st
  simp only at h h0
  subst h0
  have : ph.length = 0 := by exact_mod_cast h.symm
  simp [List.length_eq_zero.mp this]

/-- The photo scan as a fallback over the three scans run on their own. -/
theorem scanPhotos_eq (L : Int) (page : AlbumPage) :
    (scanPhotos L page).photos =
      firstNonEmpty (tier1Out L page) (tier2Out L page) (tier3Out L page) := by
  have inv1 := foldl_count_photos (tier1Each L page) (tier1Each_step L page) (photoSel page)
    { count := 0, photos := [] } (by simp)
  have inv2 := foldl_count_photos (tier2Each L page) (tier2Each_step L page) page.photoAnchors
    { count := 0, photos := [] } (by simp)
  simp only [scanPhotos, firstNonEmpty, tier1Out, tier2Out, tier3Out]
  by_cases h1 : ((photoSel page).foldl (tier1Each L page) { count := 0, photos := [] }).count = 0
  · have e1 := scanState_zero _ inv1 h1
    rw [e1]
    simp only [if_true, ne_eq, not_true_eq_false, if_false]
    by_cases h2 :
        (page.photoAnchors.foldl (tier2Each L page) { count := 0, photos := [] }).count = 0
    · have e2 := scanState_zero _ inv2 h2
      rw [e2]
      simp
    · have hne : (page.photoAnchors.foldl (tier2Each L page)
          { count := 0, photos := [] }).photos ≠ [] := by
        intro hnil
        rw [hnil] at inv2
        exact h2 (by simpa using inv2)
      simp [h2, hne]
  · have hne : ((photoSel page).foldl (tier1Each L page)
        { count := 0, photos := [] }).photos ≠ [] := by
      intro hnil
      rw [hnil] at inv1
      exact h1 (by simpa using inv1)
    simp [h1, hne]

/-- C9, claim as stated fails: with no element matching in the first
selection the later tiers still emit photos (two anchors, limit 2),
and an element whose data-id matches only after trimming is emitted too. -/
theorem tier1_count_counterexample :
    (specTier1Count twoAnchorPage = 0 ∧
        ((parseAlbum 2 [] twoAnchorPage).Photos.map (fun ph => ph.ID) = ["21", "22"]) ∧
        ((parseAlbumSingle 2 twoAnchorPage).Photos.length ≠ min 0 2)) ∧
      (specTier1Count paddedIdPage = 0 ∧
        (parseAlbum 0 [] paddedIdPage).Photos.map (fun ph => ph.ID) = ["12"] ∧
        (parseAlbum 0 [] paddedIdPage).Photos.length ≠ 0) := by
  decide

/-- C9, amended: when the first selection has n ≥ 1 elements whose trimmed
data-id matches the digit pattern, parseAlbum (in both handlers) yields the
photos of the first min(n, L) of them when L > 0 and of all n when L = 0 (or
below), in document order, each with id equal to its trimmed data-id. -/
theorem tier1_photo_limit (L : Int) (prelim : List (String × prelimInfo)) (page : AlbumPage)
    (hn : 0 < (tier1Matches page).length) :
    (parseAlbum L prelim page).Photos =
        (limitTake L 0 (tier1Matches page)).map (tier1Photo page) ∧
      (parseAlbumSingle L page).Photos =
        (limitTake L 0 (tier1Matches page)).map (tier1Photo page) ∧
      (parseAlbum L prelim page).Photos.map (fun ph => ph.ID) =
        (limitTake L 0 (tier1Matches page)).map (fun s => TrimSpace s.dataId) ∧
      (L > 0 → (((parseAlbum L prelim page).Photos.length : Nat) : Int) =
        min ((tier1Matches page).length : Int) L) ∧
      (L = 0 → (parseAlbum L prelim page).Photos.length = (tier1Matches page).length) := by
  have hne : tier1Matches page ≠ [] := by
    intro h
    rw [h] at hn
    simp at hn
  have hout : tier1Out L page ≠ [] := by
    rw [tier1Out_eq]
    intro h
    exact limitTake_zero_ne_nil L _ hne (List.map_eq_nil_iff.mp h)
  have hscan : (scanPhotos L page).photos =
      (limitTake L 0 (tier1Matches page)).map (tier1Photo page) := by
    rw [scanPhotos_eq, firstNonEmpty, if_pos hout, tier1Out_eq]
  have hpa := parseAlbum_Photos L prelim page
  refine ⟨by rw [hpa, hscan], hscan, ?_, ?_, ?_⟩
  · rw [hpa, hscan, List.map_map]
    rfl
  · intro hL
    rw [hpa, hscan, List.length_map]
    exact (limitTake_zero_length L _).1 hL
  · intro hL
    rw [hpa, hscan, List.length_map]
    exact (limitTake_zero_length L _).2 hL

/-- Witness for C9: three typed photo elements and a photo limit of 2 yield
exactly the first two, in document order. -/
theorem tier1_photo_limit_witness :
    0 < (tier1Matches threePhotoPage).length ∧
      (parseAlbum 2 [] threePhotoPage).Photos.map (fun ph => ph.ID) = ["11", "12"] ∧
      (((parseAlbum 2 [] threePhotoPage).Photos.length : Nat) : Int) = 2 := by
  have h := tier1_photo_limit 2 [] threePhotoPage (by decide)
  refine ⟨by decide, ?_, ?_⟩
  · rw [h.2.2.1]
    decide
  · rw [h.2.2.2.1 (by decide)]
    decide

/-- C10, claim as stated fails: on a page without typed photo elements the
first scan falls back to the data-id elements inside the gallery container,
so their photo is the result although the anchors of tier 2 match. -/
theorem three_tier_counterexample :
    specTier1Typed 10 galleryInnerPage = [] ∧
      (firstNonEmpty (specTier1Typed 10 galleryInnerPage) (tier2Out 10 galleryInnerPage)
        (tier3Out 10 galleryInnerPage)).map (fun ph => ph.ID) = ["21", "22"] ∧
      (parseAlbum 10 [] galleryInnerPage).Photos.map (fun ph => ph.ID) = ["5"] ∧
      (parseAlbum 10 [] galleryInnerPage).Photos ≠
        firstNonEmpty (specTier1Typed 10 galleryInnerPage) (tier2Out 10 galleryInnerPage)
          (tier3Out 10 galleryInnerPage) := by
  decide

/-- C10, amended: the photos of parseAlbum are the output of the first of the
three scans that yields at least one photo, where the first scan runs over the
typed photo elements or, when the page has none, over the data-id elements
inside the gallery container; the outputs of two scans are never mixed, and a
page on which no scan matches yields no photos. -/
theorem three_tier_fallback (L : Int) (prelim : List (String × prelimInfo))
    (page : AlbumPage) :
    (parseAlbum L prelim page).Photos =
        firstNonEmpty (tier1Out L page) (tier2Out L page) (tier3Out L page) ∧
      (parseAlbumSingle L page).Photos =
        firstNonEmpty (tier1Out L page) (tier2Out L page) (tier3Out L page) ∧
      (tier1Out L page ≠ [] → (parseAlbum L prelim page).Photos = tier1Out L page) ∧
      (tier1Out L page = [] → tier2Out L page ≠ [] →
        (parseAlbum L prelim page).Photos = tier2Out L page) ∧
      (tier1Out L page = [] → tier2Out L page = [] →
        (parseAlbum L prelim page).Photos = tier3Out L page) ∧
      (tier1Out L page = [] → tier2Out L page = [] → tier3Out L page = [] →
        (parseAlbum L prelim page).Photos = []) := by
  have hpa : (parseAlbum L prelim page).Photos =
      firstNonEmpty (tier1Out L page) (tier2Out L page) (tier3Out L page) := by
    rw [parseAlbum_Photos, scanPhotos_eq]
  refine ⟨hpa, scanPhotos_eq L page, ?_, ?_, ?_, ?_⟩
  · intro h1
    rw [hpa, firstNonEmpty, if_pos h1]
  · intro h1 h2
    rw [hpa, firstNonEmpty, if_neg (by simpa using h1), if_pos h2]
  · intro h1 h2
    rw [hpa, firstNonEmpty, if_neg (by simpa using h1), if_neg (by simpa using h2)]
  · intro h1 h2 h3
    rw [hpa, firstNonEmpty, if_neg (by simpa using h1), if_neg (by simpa using h2), h3]

/-- Witness for C10: no match in the first scan and two anchors with
photo-detail links yield exactly those two photos, each with the captured id
and its page link. -/
theorem three_tier_fallback_witness :
    tier1Out 10 twoAnchorPage = [] ∧ tier2Out 10 twoAnchorPage ≠ [] ∧
      (parseAlbum 10 [] twoAnchorPage).Photos =
        [⟨"21", "https://eu.zonerama.com/Acc/Photo/100/21",
            "https://eu.zonerama.com/photos/21_1500x1000.jpg"⟩,
          ⟨"22", "https://x.zonerama.com/Acc/Photo/100/22",
            "https://eu.zonerama.com/photos/22_1500x1000.jpg"⟩] := by
  refine ⟨by decide, by decide, ?_⟩
  rw [(three_tier_fallback 10 [] twoAnchorPage).2.2.2.1 (by decide) (by decide)]
  decide

/-! ## The listing fan-out -/

theorem enqueueLoop_dispatched (L : Int) :
    ∀ (es : List entry) (st : CrawlState),
      (enqueueLoop L es st).dispatched =
        st.dispatched ++
          limitTake L st.count (unseenFirst st.seen (es.map (fun e => e.URL))) := by
  intro es
  induction es with
  | nil => intro st; simp [enqueueLoop, unseenFirst, limitTake_nil]
  | cons e rest ih =>
    intro st
    by_cases hlim : L > 0 ∧ st.count ≥ L
    · simp [enqueueLoop, hlim, limitTake_reached L st.count _ hlim]
    · by_cases hseen : e.URL ∈ st.seen
      · simp only [enqueueLoop, if_neg hlim, if_pos hseen, List.map_cons, unseenFirst]
        rw [ih]
      · simp only [enqueueLoop, if_neg hlim, if_neg hseen, List.map_cons, unseenFirst]
        rw [ih, limitTake_cons L st.count _ _ hlim]
        simp

theorem unseenFirst_length_le : ∀ (urls seen : List String),
    (unseenFirst seen urls).length ≤ urls.length := by
  intro urls
  induction urls with
  | nil => intro seen; simp [unseenFirst]
  | cons u us ih =>
    intro seen
    simp only [unseenFirst]
    split_ifs
    · exact Nat.le_succ_of_le (ih seen)
    · simpa using ih (u :: seen)

theorem scanTiles_length (page : ProfilePage) :
    (scanTiles page).length = (linkTiles page).length := by
  unfold scanTiles linkTiles
  induction albumTiles page with
  | nil => rfl
  | cons t ts ih =>
    by_cases h : tileLink t = ""
    · simp [List.filterMap_cons, tileEntry, h, ih]
    · simp [List.filterMap_cons, tileEntry, h, ih]

theorem parseProfile_dispatched (L : Int) (page : ProfilePage) (seen : List String)
    (prelim : List (String × prelimInfo)) :
    (parseProfile L page seen prelim).dispatched =
      limitTake L 0
        (unseenFirst seen ((SliceStable entryLess (scanTiles page)).map (fun e => e.URL))) := by
  unfold parseProfile
  rw [enqueueLoop_dispatched]
  simp

/-- C6: with a limit L > 0, a listing page with K link-bearing tiles
(duplicate links allowed) makes parseProfile dispatch at most min(K, L) child
fetches, whatever links were visited before. -/
theorem fanout_at_most_min (L : Int) (page : ProfilePage) (seen : List String)
    (prelim : List (String × prelimInfo)) (hL : 0 < L) :
    (((parseProfile L page seen prelim).dispatched.length : Nat) : Int) ≤
      min ((linkTiles page).length : Int) L := by
  rw [parseProfile_dispatched]
  have h1 := (limitTake_zero_length L
    (unseenFirst seen ((SliceStable entryLess (scanTiles page)).map (fun e => e.URL)))).1 hL
  rw [h1]
  have h2 := unseenFirst_length_le
    ((SliceStable entryLess (scanTiles page)).map (fun e => e.URL)) seen
  have h3 : (SliceStable entryLess (scanTiles page)).length = (linkTiles page).length := by
    rw [(SliceStable_perm entryLess (scanTiles page)).length_eq, scanTiles_length]
  rw [List.length_map, h3] at h2
  have h4 : ((unseenFirst seen
      ((SliceStable entryLess (scanTiles page)).map (fun e => e.URL))).length : Int) ≤
      ((linkTiles page).length : Int) := by exact_mod_cast h2
  exact min_le_min h4 le_rfl

/-- Witness for C6: three link-bearing tiles, two of them with the same link,
and a limit of 2 dispatch two fetches. -/
theorem fanout_at_most_min_witness :
    (0 : Int) < 2 ∧ (linkTiles duplicateTilePage).length = 3 ∧
      (parseProfile 2 duplicateTilePage [] []).dispatched.length = 2 ∧
      (((parseProfile 2 duplicateTilePage [] []).dispatched.length : Nat) : Int) ≤
        min ((linkTiles duplicateTilePage).length : Int) 2 :=
  ⟨by decide, by decide, by decide, fanout_at_most_min 2 duplicateTilePage [] [] (by decide)⟩

/-- C7, claim as stated fails: a link that occurs twice among the first L
entries does not use up the limit (the next album is fetched as well), and
entries without a parseable date are ordered by link, not by document order. -/
theorem fanout_claimed_order_fails :
    ((parseProfile 2 duplicateTilePage [] []).dispatched =
        ["https://eu.zonerama.com/Acc/Album/25", "https://eu.zonerama.com/Acc/Album/24"] ∧
      specDispatch 2 [] (scanTiles duplicateTilePage) =
        ["https://eu.zonerama.com/Acc/Album/25"]) ∧
    ((parseProfile 1 undatedTilePage [] []).dispatched =
        ["https://eu.zonerama.com/Acc/Album/a"] ∧
      specDispatch 1 [] (scanTiles undatedTilePage) =
        ["https://eu.zonerama.com/Acc/Album/b"]) := by
  decide

/-- C7, amended: with a limit L > 0 the dispatched links are the first L links,
each taken once and only if not visited before, of the entries in sorted order;
that order is a permutation of the entries in which no entry is less than an
earlier one under the comparator (newest parsed date first, dated before
undated, undated by link) and in which entries of one timestamp, and undated
entries of one link, keep their document order. -/
theorem fanout_selection (L : Int) (page : ProfilePage) (seen : List String)
    (prelim : List (String × prelimInfo)) (hL : 0 < L) :
    (parseProfile L page seen prelim).dispatched =
        (unseenFirst seen
          ((SliceStable entryLess (scanTiles page)).map (fun e => e.URL))).take L.toNat ∧
      (SliceStable entryLess (scanTiles page)).Perm (scanTiles page) ∧
      (SliceStable entryLess (scanTiles page)).Pairwise (fun a b => entryLess b a = false) ∧
      (∀ t : Int,
        (SliceStable entryLess (scanTiles page)).filter
            (fun e => decide (parseDate e.Info.Date = some t)) =
          (scanTiles page).filter (fun e => decide (parseDate e.Info.Date = some t))) ∧
      (∀ u : String,
        (SliceStable entryLess (scanTiles page)).filter
            (fun e => decide (parseDate e.Info.Date = none ∧ e.URL = u)) =
          (scanTiles page).filter
            (fun e => decide (parseDate e.Info.Date = none ∧ e.URL = u))) := by
  refine ⟨?_, SliceStable_perm _ _,
    SliceStable_sorted entryLess entryLess_asymm entryLess_negtrans _, ?_, ?_⟩
  · rw [parseProfile_dispatched]
    simp [limitTake, hL]
  · intro t
    apply SliceStable_filter
    intro a b ha hb
    simp only [decide_eq_true_eq] at ha hb
    simp [entryLess, ha, hb]
  · intro u
    apply SliceStable_filter
    intro a b ha hb
    simp only [decide_eq_true_eq] at ha hb
    have hirr : ∀ l : List Char, lexLess l l = false := by
      intro l
      induction l with
      | nil => rfl
      | cons c cs ih => simp [lexLess, ih]
    simp [entryLess, ha.1, hb.1, ha.2, hb.2, strLess, hirr]

/-- Witness for C7: tiles dated 1. 1. 2024 and 20. 9. 2025, in this document
order, with a limit of 1 dispatch only the album of 2025. -/
theorem fanout_selection_witness :
    (0 : Int) < 1 ∧
      (scanTiles twoTilePage).map (fun e => e.Info.Date) = ["1. 1. 2024", "20. 9. 2025"] ∧
      (parseProfile 1 twoTilePage [] []).dispatched =
        ["https://eu.zonerama.com/Acc/Album/25"] := by
  refine ⟨by decide, by decide, ?_⟩
  rw [(fanout_selection 1 twoTilePage [] [] (by decide)).1]
  decide

/-! ## The permit pool -/

/-- C13: for every configured concurrency c and entity limit L the capacity of
the semaphore is min(max(c, 1), L) when L > 0 and max(c, 1) otherwise; it is at
least 1 and, when L > 0, at most L. -/
theorem semCapacity_spec (c L : Int) :
    (L > 0 → semCapacity c L = min (max c 1) L) ∧
      (¬ L > 0 → semCapacity c L = max c 1) ∧
      1 ≤ semCapacity c L ∧
      (L > 0 → semCapacity c L ≤ L) := by
  simp only [semCapacity]
  refine ⟨?_, ?_, ?_, ?_⟩
  · intro hL
    split_ifs <;> omega
  · intro hL
    split_ifs <;> omega
  · split_ifs <;> omega
  · intro hL
    split_ifs <;> omega

/-- Witness for C13: the default concurrency 8 with an entity limit of 5 gives
a pool of 5, and a concurrency of 0 without a limit gives a pool of 1. -/
theorem semCapacity_spec_witness :
    semCapacity 8 5 = min (max 8 1) 5 ∧ semCapacity 8 5 = 5 ∧
      semCapacity 0 0 = max 0 1 ∧ semCapacity 8 5 ≤ 5 :=
  ⟨(semCapacity_spec 8 5).1 (by decide), by decide,
    (semCapacity_spec 0 0).2.1 (by decide), (semCapacity_spec 8 5).2.2.2 (by decide)⟩

/-! ## No link is dispatched twice -/

/-- The loop over a list of entries passes through the state it reaches on
every prefix: after a `break` the limit still holds, so the rest changes
nothing. -/
theorem enqueueLoop_append (L : Int) :
    ∀ (es1 es2 : List entry) (st : CrawlState),
      enqueueLoop L (es1 ++ es2) st = enqueueLoop L es2 (enqueueLoop L es1 st) := by
  intro es1
  induction es1 with
  | nil => intro es2 st; simp [enqueueLoop]
  | cons e rest ih =>
    intro es2 st
    by_cases hlim : L > 0 ∧ st.count ≥ L
    · have h1 : enqueueLoop L (e :: rest) st = st := by simp [enqueueLoop, hlim]
      have h2 : enqueueLoop L (e :: rest ++ es2) st = st := by simp [enqueueLoop, hlim]
      rw [h1, h2]
      cases es2 with
      | nil => simp [enqueueLoop]
      | cons e2 r2 => simp [enqueueLoop, hlim]
    · by_cases hseen : e.URL ∈ st.seen
      · simp only [List.cons_append, enqueueLoop, if_neg hlim, if_pos hseen]
        exact ih es2 _
      · simp only [List.cons_append, enqueueLoop, if_neg hlim, if_neg hseen]
        exact ih es2 _

/-- The loop keeps the visited set and the dispatched links in step: both
without repetition, of one length, with the same members. -/
theorem enqueueLoop_invariant (L : Int) :
    ∀ (es : List entry) (st : CrawlState),
      st.dispatched.Nodup → st.seen.Nodup → st.seen.length = st.dispatched.length →
      (∀ u, u ∈ st.seen ↔ u ∈ st.dispatched) →
      (enqueueLoop L es st).dispatched.Nodup ∧ (enqueueLoop L es st).seen.Nodup ∧
        (enqueueLoop L es st).seen.length = (enqueueLoop L es st).dispatched.length ∧
        (∀ u, u ∈ (enqueueLoop L es st).seen ↔ u ∈ (enqueueLoop L es st).dispatched) := by
  intro es
  induction es with
  | nil => intro st h1 h2 h3 h4; exact ⟨h1, h2, h3, h4⟩
  | cons e rest ih =>
    intro st h1 h2 h3 h4
    by_cases hlim : L > 0 ∧ st.count ≥ L
    · simp only [enqueueLoop, if_pos hlim]
      exact ⟨h1, h2, h3, h4⟩
    · by_cases hseen : e.URL ∈ st.seen
      · simp only [enqueueLoop, if_neg hlim, if_pos hseen]
        exact ih _ h1 h2 h3 h4
      · simp only [enqueueLoop, if_neg hlim, if_neg hseen]
        apply ih
        · have hnd : e.URL ∉ st.dispatched := fun h => hseen ((h4 _).mpr h)
          refine List.Nodup.append h1 (List.nodup_singleton _) ?_
          intro a ha hb
          rw [List.mem_singleton] at hb
          exact hnd (hb ▸ ha)
        · exact List.nodup_cons.mpr ⟨hseen, h2⟩
        · simp [h3]
        · intro u
          simp only [List.mem_cons, List.mem_append, List.mem_singleton, h4 u]
          tauto

/-- C12: no link is dispatched twice within one crawl: in every state that the
enqueue loop of parseProfile reaches from an empty visited set (the state after
any number k of entries), the dispatched links are distinct, the visited set
has as many links as fetches were dispatched, and it holds exactly those
links. -/
theorem no_link_dispatched_twice (L : Int) (page : ProfilePage)
    (prelim : List (String × prelimInfo)) (k : Nat) :
    (enqueueLoop L ((SliceStable entryLess (scanTiles page)).take k)
        (crawlStart prelim)).dispatched.Nodup ∧
      (enqueueLoop L ((SliceStable entryLess (scanTiles page)).take k)
        (crawlStart prelim)).seen.Nodup ∧
      (enqueueLoop L ((SliceStable entryLess (scanTiles page)).take k)
          (crawlStart prelim)).seen.length =
        (enqueueLoop L ((SliceStable entryLess (scanTiles page)).take k)
          (crawlStart prelim)).dispatched.length ∧
      (∀ u, u ∈ (enqueueLoop L ((SliceStable entryLess (scanTiles page)).take k)
          (crawlStart prelim)).seen ↔
        u ∈ (enqueueLoop L ((SliceStable entryLess (scanTiles page)).take k)
          (crawlStart prelim)).dispatched) ∧
      parseProfile L page [] prelim =
        enqueueLoop L ((SliceStable entryLess (scanTiles page)).drop k)
          (enqueueLoop L ((SliceStable entryLess (scanTiles page)).take k)
            (crawlStart prelim)) := by
  have h := enqueueLoop_invariant L ((SliceStable entryLess (scanTiles page)).take k)
    (crawlStart prelim) List.nodup_nil List.nodup_nil rfl (fun u => Iff.rfl)
  refine ⟨h.1, h.2.1, h.2.2.1, h.2.2.2, ?_⟩
  rw [← enqueueLoop_append, List.take_append_drop]
  rfl

/-- Witness for C12: on the page that links the newest album twice, after all
three entries two links are dispatched and two are visited. -/
theorem no_link_dispatched_twice_witness :
    (enqueueLoop 0 ((SliceStable entryLess (scanTiles duplicateTilePage)).take 3)
        (crawlStart [])).dispatched =
        ["https://eu.zonerama.com/Acc/Album/25", "https://eu.zonerama.com/Acc/Album/24"] ∧
      (enqueueLoop 0 ((SliceStable entryLess (scanTiles duplicateTilePage)).take 3)
        (crawlStart [])).dispatched.Nodup ∧
      (enqueueLoop 0 ((SliceStable entryLess (scanTiles duplicateTilePage)).take 3)
          (crawlStart [])).seen.length =
        (enqueueLoop 0 ((SliceStable entryLess (scanTiles duplicateTilePage)).take 3)
          (crawlStart [])).dispatched.length :=
  ⟨by decide, (no_link_dispatched_twice 0 duplicateTilePage [] 3).1,
    (no_link_dispatched_twice 0 duplicateTilePage [] 3).2.2.1⟩

/-! ## Input validation of the single-album endpoint -/

theorem hasInfix_iff (sub : List Char) :
    ∀ l : List Char, hasInfix sub l = true ↔ sub <:+: l := by
  intro l
  induction l with
  | nil =>
    simp only [hasInfix, List.isPrefixOf_iff_prefix]
    constructor
    · intro h; exact h.isInfix
    · intro h
      have : sub = [] := List.eq_nil_of_infix_nil h
      rw [this]
  | cons c t ih =>
    simp only [hasInfix, Bool.or_eq_true, List.isPrefixOf_iff_prefix, ih]
    rw [List.infix_cons_iff]

/-- Every host that is the site or one of its subdomains passes the host check
of the handler. -/
theorem specSourceSite_contains (host : String) (h : specSourceSite host = true) :
    Contains host "zonerama.com" = true := by
  unfold Contains
  rw [hasInfix_iff]
  simp only [specSourceSite, Bool.or_eq_true, decide_eq_true_eq,
    List.isSuffixOf_iff_suffix] at h
  rcases h with h | h
  · rw [h]
  · obtain ⟨pre, hpre⟩ := h
    refine ⟨pre ++ ['.'], [], ?_⟩
    rw [← hpre]
    simp

/-- The handler answers 400, with an error message, exactly when the link is
empty, or does not parse, or has a scheme other than http and https, or has a
host that does not contain `zonerama.com`, or has a path that does not contain
`/Album/`; in every other case it answers 200 with the response. -/
theorem zoneramaAlbumHandler_status (req : AlbumRequest) (fetched : Option AlbumPage) :
    ((zoneramaAlbumHandler req fetched).status = 400 ↔
        (req.link = "" ∨ req.parsed = none ∨
          ∃ u, req.parsed = some u ∧
            ((u.Scheme ≠ "http" ∧ u.Scheme ≠ "https") ∨
              Contains u.Host "zonerama.com" = false ∨
              Contains u.Path "/Album/" = false))) ∧
      ((zoneramaAlbumHandler req fetched).status = 400 ∨
        (zoneramaAlbumHandler req fetched).status = 200) ∧
      ((zoneramaAlbumHandler req fetched).status = 400 ↔
        (zoneramaAlbumHandler req fetched).error.isSome = true) ∧
      ((zoneramaAlbumHandler req fetched).status = 200 ↔
        (zoneramaAlbumHandler req fetched).resp.isSome = true) := by
  obtain ⟨link, parsed, limit⟩ := req
  simp only [zoneramaAlbumHandler, albumLinkError]
  by_cases h0 : link = ""
  · simp [h0]
  · cases parsed with
    | none => simp [h0]
    | some u =>
      by_cases h1 : u.Scheme ≠ "http" ∧ u.Scheme ≠ "https"
      · simp [h0, h1]
      · by_cases h2 : Contains u.Host "zonerama.com" = false
        · simp [h0, h1, h2]
        · by_cases h3 : Contains u.Path "/Album/" = false
          · simp [h0, h1, h2, h3]
          · simp [h0, h1, h2, h3]

/-- C11, evaluated at the failing input: the link
https://zonerama.com.evil.org/Acc/Album/1 parses with scheme https and a path
that contains /Album/, its host is neither zonerama.com nor a subdomain of it,
and still the handler does not answer 400 but fetches and answers 200: the
host check is a substring test. -/
theorem album_link_foreign_host_accepted :
    foreignHostRequest.link ≠ "" ∧
      foreignHostRequest.parsed =
        some { Scheme := "https", Host := "zonerama.com.evil.org", Path := "/Acc/Album/1" } ∧
      specSourceSite "zonerama.com.evil.org" = false ∧
      Contains "zonerama.com.evil.org" "zonerama.com" = true ∧
      albumLinkError foreignHostRequest = none ∧
      (∀ fetched, (zoneramaAlbumHandler foreignHostRequest fetched).status = 200) := by
  refine ⟨by decide, rfl, by decide, by decide, by decide, ?_⟩
  intro fetched
  have h : albumLinkError foreignHostRequest = none := by decide
  simp [zoneramaAlbumHandler, h]

end Zonerama
